import Mathlib

/-!
Shallow embedding of the stream-reader cursor engine of the
opensky/transcript repository, together with its HTTP-client counterpart.

Source files embedded:
* `dab/src/opensky-pipeline/datasources/transcript.py` — `TranscriptStreamReader`
* `api/main.py` — `TranscriptClient` and `OpenSkyClient`

Machine floats of the source are modelled as `Rat`, wall-clock instants as
`Rat` seconds.  `time.sleep` pacing calls only delay execution and affect no
value, so they are not modelled.  Python's `random.*` draws are modelled as
explicit oracle functions passed to the embedded loaders.
-/

namespace Transcript

/-- One utterance of a conversation (`Utterance` dataclass, transcript.py
lines 71-79).  The `words` field holds word-level dictionaries in the source;
every code path constructs it as the empty list and nothing ever reads its
entries, so they are modelled as opaque strings. -/
structure Utterance where
  text : String
  speaker : String
  start_time : Rat
  end_time : Rat
  confidence : Rat
  words : List String
deriving DecidableEq, Repr

/-- A complete conversation with metadata (`Conversation` dataclass,
transcript.py lines 82-90). -/
structure Conversation where
  conversation_id : String
  utterances : List Utterance
  domain : String
  topic : String
  accent : String
  duration : Rat
deriving DecidableEq, Repr

/-- The offset dictionary `{conversation_idx, utterance_idx, total_sent}`
produced by `initialOffset` and threaded through `read`
(transcript.py lines 326-332, 410-415). -/
structure Offset where
  conversation_idx : Nat
  utterance_idx : Nat
  total_sent : Nat
deriving DecidableEq, Repr

/-- The instance state of `TranscriptStreamReader` (transcript.py lines
107-126): the option-derived configuration fields, the loaded corpus and the
mutable cursor fields.  `chunk_size` is the class attribute `CHUNK_SIZE`
(10 in the source); it is kept as a field so that batch sizes other than 10
can be analysed. -/
structure Reader where
  utterance_delay : Rat
  conversation_delay : Rat
  loop : Bool
  max_utterances : Int
  chunk_size : Nat
  conversations : List Conversation
  current_conversation_idx : Nat
  current_utterance_idx : Nat
  total_utterances_sent : Nat
  start_time : Rat
deriving DecidableEq, Repr

/-- One output tuple of `read`, in schema order (transcript.py lines
386-398 and the schema at lines 452-464). -/
structure Row where
  timestamp : Rat
  conversation_id : String
  utterance_id : Nat
  speaker : String
  text : String
  confidence : Rat
  start_time : Rat
  end_time : Rat
  domain : String
  topic : String
  accent : String
deriving DecidableEq, Repr

/-- The payload of a row without its emission timestamp: exactly the fields
`conversation_id, utterance_id, speaker, text, confidence, start_time,
end_time, domain, topic, accent`. -/
structure RowData where
  conversation_id : String
  utterance_id : Nat
  speaker : String
  text : String
  confidence : Rat
  start_time : Rat
  end_time : Rat
  domain : String
  topic : String
  accent : String
deriving DecidableEq, Repr

/-- Strip the timestamp from a row. -/
def Row.data (r : Row) : RowData :=
  ⟨r.conversation_id, r.utterance_id, r.speaker, r.text, r.confidence,
   r.start_time, r.end_time, r.domain, r.topic, r.accent⟩

/-- Placeholder conversation used for the (always guarded) list indexing
`self.conversations[idx]`. -/
def dConv : Conversation := ⟨"", [], "", "", "", 0⟩

/-- Placeholder utterance used for the (always guarded) list indexing
`conversation.utterances[idx]`. -/
def dUtt : Utterance := ⟨"", "", 0, 0, 0, []⟩

/-- The row built at transcript.py lines 381-398 for conversation index `ci`
holding `conv`, utterance index `ui` holding `u`, when `t` utterances were
already sent before this batch and `c` inside it. -/
def mkRow (delay startT : Rat) (conv : Conversation) (u : Utterance)
    (ui t c : Nat) : Row :=
  ⟨startT + ((t + c : Nat) : Rat) * delay, conv.conversation_id, ui,
   u.speaker, u.text, u.confidence, u.start_time, u.end_time,
   conv.domain, conv.topic, conv.accent⟩

/-- The `while utterances_collected < self.CHUNK_SIZE` loop of `read`
(transcript.py lines 357-408), with the implicit fall-through after the
`loop` wrap and the `continue` after a conversation skip both rendered as
tail calls (they re-test the unchanged loop condition).  `fuel` bounds the
number of iterations; the loop of the source terminates in at most
`readFuel` iterations except when looping is enabled on a corpus with no
utterances at all, where the source spins forever.  Arguments after the
corpus: fuel, conversation index, utterance index, utterances collected,
total sent before the call, accumulated batch.  Returns the batch and the
final conversation index, utterance index and collected count. -/
def readLoop (chunk : Nat) (loopFlag : Bool) (delay startT : Rat)
    (convs : List Conversation) :
    Nat → Nat → Nat → Nat → Nat → List Row → List Row × Nat × Nat × Nat
  | 0, ci, ui, c, _, b => (b, ci, ui, c)
  | fuel + 1, ci, ui, c, t, b =>
    if c < chunk then
      if convs.length ≤ ci then
        if loopFlag then
          readLoop chunk loopFlag delay startT convs fuel 0 0 c t b
        else
          (b, ci, ui, c)
      else
        let conv := convs.getD ci dConv
        if conv.utterances.length ≤ ui then
          readLoop chunk loopFlag delay startT convs fuel (ci + 1) 0 c t b
        else
          let u := conv.utterances.getD ui dUtt
          readLoop chunk loopFlag delay startT convs fuel ci (ui + 1) (c + 1) t
            (b ++ [mkRow delay startT conv u ui t c])
    else
      (b, ci, ui, c)

/-- Iteration bound for `readLoop`: between two emissions the loop makes at
most `n` conversation skips, one wrap and `n` further skips. -/
def readFuel (chunk n : Nat) : Nat :=
  (chunk + 1) * (2 * n + 3)

/-- `initialOffset` (transcript.py lines 326-332). -/
def initialOffset : Offset := ⟨0, 0, 0⟩

/-- `TranscriptStreamReader.read` (transcript.py lines 334-422): restore the
cursor from the offset, return early on an empty corpus or when
`max_utterances` is exhausted with looping disabled, otherwise run the batch
loop, and store the final cursor back into the instance.  The result pairs
`(batch, new_offset)` with the post-call instance state. -/
def Reader.read (r : Reader) (start : Offset) : (List Row × Offset) × Reader :=
  if r.conversations.isEmpty then
    (([], start), r)
  else
    let r1 := { r with
      current_conversation_idx := start.conversation_idx,
      current_utterance_idx := start.utterance_idx,
      total_utterances_sent := start.total_sent }
    if r1.max_utterances > 0 ∧ (r1.total_utterances_sent : Int) ≥ r1.max_utterances
        ∧ r1.loop = false then
      (([], start), r1)
    else
      let L := readLoop r1.chunk_size r1.loop r1.utterance_delay r1.start_time
        r1.conversations (readFuel r1.chunk_size r1.conversations.length)
        r1.current_conversation_idx r1.current_utterance_idx 0
        r1.total_utterances_sent []
      ((L.1, ⟨L.2.1, L.2.2.1, r1.total_utterances_sent + L.2.2.2⟩),
       { r1 with
          current_conversation_idx := L.2.1,
          current_utterance_idx := L.2.2.1,
          total_utterances_sent := r1.total_utterances_sent + L.2.2.2 })

/-- Cumulative result of `n` successive `read` calls, each starting from the
offset returned by the previous one (the micro-batch engine's pull loop). -/
def reads (r : Reader) : Nat → Offset → List Row × Offset
  | 0, o => ([], o)
  | n + 1, o =>
    let R := Reader.read r o
    let rest := reads r n R.1.2
    (R.1.1 ++ rest.1, rest.2)

/-- The row payload `read` emits for position `(ci, ui)` of the corpus. -/
def rowAt (convs : List Conversation) (ci ui : Nat) : RowData :=
  let conv := convs.getD ci dConv
  let u := conv.utterances.getD ui dUtt
  ⟨conv.conversation_id, ui, u.speaker, u.text, u.confidence,
   u.start_time, u.end_time, conv.domain, conv.topic, conv.accent⟩

/-- Payloads of the utterances of `conv` taken from list `l`, the first one
carrying utterance index `i`. -/
def projList (conv : Conversation) : List Utterance → Nat → List RowData
  | [], _ => []
  | u :: us, i =>
    ⟨conv.conversation_id, i, u.speaker, u.text, u.confidence,
     u.start_time, u.end_time, conv.domain, conv.topic, conv.accent⟩ ::
    projList conv us (i + 1)

/-- Payloads of conversation `conv` from utterance index `ui` on. -/
def convFrom (conv : Conversation) (ui : Nat) : List RowData :=
  projList conv (conv.utterances.drop ui) ui

/-- Payloads of the whole corpus from position `(ci, ui)` on, in emission
order. -/
def flatFrom : List Conversation → Nat → Nat → List RowData
  | [], _, _ => []
  | conv :: rest, 0, ui => convFrom conv ui ++ flatFrom rest 0 0
  | _ :: rest, ci + 1, ui => flatFrom rest ci ui

/-- Payloads of the whole corpus in emission order. -/
def flat (convs : List Conversation) : List RowData :=
  flatFrom convs 0 0

/-! Distance, in loop iterations, from a cursor position to the next
emission.  Used to bound the batch loop when looping is enabled. -/

/-- Number of conversations skipped before the first one with an utterance,
or `none` if every conversation of the list is empty. -/
def dNoWrap : List Conversation → Option Nat
  | [] => none
  | conv :: rest =>
    if conv.utterances.isEmpty then (dNoWrap rest).map (· + 1) else some 0

/-- Iterations from cursor `(a, 0)` to the next emission when looping is
enabled: skip forward to the first non-empty conversation, wrapping once if
the tail from `a` is all empty. -/
def seekDist (convs : List Conversation) (a : Nat) : Nat :=
  match dNoWrap (convs.drop a) with
  | some k => k
  | none => (convs.length - a) + 1 + (dNoWrap convs).getD 0

/-- Iterations from cursor `(ci, ui)` to the next emission when looping is
enabled. -/
def distToEmit (convs : List Conversation) (ci ui : Nat) : Nat :=
  if ci < convs.length then
    if ui < (convs.getD ci dConv).utterances.length then 0
    else 1 + seekDist convs (ci + 1)
  else 1 + seekDist convs 0

/-! The HTTP transcript client of api/main.py. -/

/-- One stored utterance record of `TranscriptClient` (the flat JSON objects
loaded from `data/conversations.jsonl` or produced by its sample generator,
main.py lines 282-352). -/
structure ClientUtt where
  conversation_id : String
  utterance_id : Nat
  speaker : String
  text : String
  confidence : Rat
  start_time : Rat
  end_time : Rat
  domain : String
  topic : String
  accent : String
deriving DecidableEq, Repr

/-- A record returned by `get_utterances`: a copy of a stored record with the
emission timestamp attached (main.py lines 366-370). -/
structure ClientRow where
  base : ClientUtt
  timestamp : Rat
deriving DecidableEq, Repr

/-- The instance state of `TranscriptClient` (main.py lines 264-268):
the stored records (named `conversations` in the source even though each
entry is a single utterance), the cursor and the loaded count. -/
structure TranscriptClient where
  conversations : List ClientUtt
  current_idx : Nat
  total_utterances : Nat
deriving DecidableEq, Repr

/-- `TranscriptClient.get_utterances` (main.py lines 354-377): slice up to
`limit` records from the current position, attach the current wall-clock
`now` to a copy of each, advance the cursor and reset it to `0` once the end
of the list is reached. -/
def TranscriptClient.get_utterances (st : TranscriptClient) (limit : Nat)
    (now : Rat) : List ClientRow × TranscriptClient :=
  if st.conversations.isEmpty then
    ([], st)
  else
    let end_idx := min (st.current_idx + limit) st.conversations.length
    let utts := (st.conversations.take end_idx).drop st.current_idx
    let result := utts.map fun u => ClientRow.mk u now
    let idx1 := end_idx
    let idx2 := if st.conversations.length ≤ idx1 then 0 else idx1
    (result, { st with current_idx := idx2 })

/-! The OpenSky client of api/main.py (the remote fetch path). -/

/-- The decoded JSON body of a successful `/api/states/all` response: the
`time` field and the raw `states` vectors.  Field values are kept as raw
optional strings; the numeric and timestamp decoding applied by the source
is value-level and plays no role in the verified properties. -/
structure Payload where
  time : Option Int
  states : List (List (Option String))
deriving DecidableEq, Repr

/-- Outcome of one HTTP attempt made by the mounted session: a response with
a status code and body, or a network-level error. -/
inductive Attempt where
  | resp (status : Nat) (body : Payload)
  | netErr
deriving DecidableEq, Repr

/-- A flight record assembled at main.py lines 232-246, with raw field
values. -/
structure Flight where
  time_ingest : Int
  icao24 : String
  callsign : Option String
  origin_country : Option String
  time_position : Option String
  last_contact : Option String
  longitude : String
  latitude : String
  geo_altitude : Option String
  on_ground : Option String
  velocity : Option String
  true_track : Option String
  vertical_rate : Option String
deriving DecidableEq, Repr

/-- `OpenSkyClient.MAX_RETRIES` (main.py line 131). -/
def MAX_RETRIES : Nat := 3

/-- The `status_forcelist` of the mounted retry strategy (main.py line 147). -/
def status_forcelist : List Nat := [429, 500, 502, 503, 504]

/-- An attempt outcome the session-level retry strategy retries: a network
error, or a response whose status is in the forcelist. -/
def Attempt.isTransient : Attempt → Bool
  | .netErr => true
  | .resp status _ => status ∈ status_forcelist

/-- The exception `get_flights` raises past its boundary
(`HTTPException(status_code=503, ...)`, main.py line 251; the dynamic detail
string is not modelled). -/
structure HttpException where
  status_code : Nat
deriving DecidableEq, Repr

/-- Marker for the session-level `MaxRetryError` raised once the mounted
`Retry(total=MAX_RETRIES, ...)` strategy is exhausted. -/
inductive SessionError where
  | maxRetries
deriving DecidableEq, Repr

/-- Behaviour of `session.get` with the mounted retry adapter (main.py lines
141-152): attempt `i` is consulted; transient outcomes (connection errors and
forcelisted statuses) consume one retry and move to the next attempt, any
other response is returned, and exhausting the `retriesLeft` budget raises. -/
def sessionGet (attempts : Nat → Attempt) :
    Nat → Nat → Except SessionError (Nat × Payload)
  | 0, i =>
    match attempts i with
    | .resp status body =>
      if status ∈ status_forcelist then .error .maxRetries
      else .ok (status, body)
    | .netErr => .error .maxRetries
  | r + 1, i =>
    match attempts i with
    | .resp status body =>
      if status ∈ status_forcelist then sessionGet attempts r (i + 1)
      else .ok (status, body)
    | .netErr => sessionGet attempts r (i + 1)

/-- The state-vector filter and record assembly of `get_flights` (main.py
lines 222-246): vectors shorter than 17 entries or with a missing
icao24/longitude/latitude are skipped, the rest become `Flight` records
stamped with the payload `time` (defaulting to the current clock). -/
def parse_flights (p : Payload) (nowTs : Int) : List Flight :=
  let timestamp := p.time.getD nowTs
  p.states.filterMap fun st =>
    if st.length < 17 then none
    else
      match st.getD 0 none, st.getD 5 none, st.getD 6 none with
      | some icao, some lon, some lat =>
        some
          { time_ingest := timestamp
            icao24 := icao
            callsign :=
              match st.getD 1 none with
              | some s => if s = "" then none else some s.trim
              | none => none
            origin_country := st.getD 2 none
            time_position := st.getD 3 none
            last_contact := st.getD 4 none
            longitude := lon
            latitude := lat
            geo_altitude := st.getD 7 none
            on_ground := st.getD 8 none
            velocity := st.getD 9 none
            true_track := st.getD 10 none
            vertical_rate := st.getD 11 none }
      | _, _, _ => none

/-- `OpenSkyClient.get_flights` (main.py lines 192-251): issue the request
through the retrying session, then `raise_for_status` and parse; any
exception — including the exhausted-retries one — is caught and re-raised as
an `HTTPException` with status 503.  Token handling and the rate-limit sleep
affect no returned value and are not modelled. -/
def get_flights (attempts : Nat → Attempt) (nowTs : Int) :
    Except HttpException (List Flight) :=
  match sessionGet attempts MAX_RETRIES 0 with
  | .error _ => .error ⟨503⟩
  | .ok (status, body) =>
    if 400 ≤ status then .error ⟨503⟩
    else .ok (parse_flights body nowTs)

/-! Corpus loading, transcript.py side. -/

/-- Python's `len(text.split())`: the number of maximal whitespace-free
words. -/
def countWords (s : String) : Nat :=
  ((s.split fun ch => ch.isWhitespace).filter fun w => w ≠ "").length

/-- Python's `line.split(':', 1)[1]`: everything after the first colon. -/
def afterFirstColon (s : String) : String :=
  String.intercalate ":" (s.splitOn ":").tail

/-- The line loop of `_parse_transcript_text` (transcript.py lines 200-230):
blank lines are skipped; a line with an agent/customer prefix sets the
speaker and drops the prefix; word count estimates the duration; `conf k`
models the `random.random()` draw of the `k`-th produced utterance. -/
def pttGo (conf : Nat → Rat) : List String → Rat → Nat → List Utterance
  | [], _, _ => []
  | line :: rest, currentTime, k =>
    let l := line.trim
    if l = "" then pttGo conf rest currentTime k
    else
      let lower := l.toLower
      let isAgent := lower.startsWith "agent:" || lower.startsWith "a:"
      let isCustomer := lower.startsWith "customer:" || lower.startsWith "c:"
        || lower.startsWith "caller:" || lower.startsWith "user:"
      let speaker := if isAgent then "agent"
        else if isCustomer then "customer" else "agent"
      let cleaned := if isAgent || isCustomer then
          (if l.contains ':' then (afterFirstColon l).trim else l)
        else l
      let duration := ((countWords cleaned : Nat) : Rat) * (1 / 2)
      ⟨cleaned, speaker, currentTime, currentTime + duration,
        19 / 20 + conf k * (1 / 20), []⟩ ::
      pttGo conf rest (currentTime + duration + 1 / 2) (k + 1)

/-- `_parse_transcript_text` (transcript.py lines 192-232). -/
def parseTranscriptText (conf : Nat → Rat) (text : String) : List Utterance :=
  pttGo conf (text.trim.splitOn "\n") 0 0

/-- A raw record of the upstream dataset as consumed by
`_parse_huggingface_dataset`: the `.get` keys the source reads. -/
structure HFRec where
  id : Option String
  transcript : Option String
  text : Option String
  domain : Option String
  topic : Option String
  accent : Option String
  duration : Option Rat
deriving DecidableEq, Repr

/-- One iteration of the record loop of `_parse_huggingface_dataset`
(transcript.py lines 161-180). -/
def parseRecord (conf : Nat → Rat) (idx : Nat) (rec : HFRec) : Conversation :=
  let conversation_id := rec.id.getD ("conv_" ++ toString idx)
  let transcript_text := rec.transcript.getD (rec.text.getD "")
  let utterances := parseTranscriptText conf transcript_text
  { conversation_id := conversation_id
    utterances := utterances
    domain := rec.domain.getD "unknown"
    topic := rec.topic.getD "unknown"
    accent := rec.accent.getD "unknown"
    duration := rec.duration.getD (((utterances.length : Nat) : Rat) * 5) }

/-- Python's `f"conv_{i:05d}"`. -/
def pad5 (n : Nat) : String :=
  let s := toString n
  String.mk (List.replicate (5 - s.length) '0') ++ s

/-- The conversation templates of `_generate_sample_data`
(transcript.py lines 243-287). -/
def conversation_templates : List (List (String × String)) :=
  [[("agent", "Thank you for calling customer support. How may I help you today?"),
    ("customer", "Hi, I'm having trouble with my recent bill. It seems higher than usual."),
    ("agent", "I understand your concern. Let me pull up your account. Can I have your account number please?"),
    ("customer", "Sure, it's account number 12345."),
    ("agent", "Thank you. I can see your account now. Let me review your recent charges."),
    ("agent", "I see the issue. There was a one-time setup fee that was applied this month."),
    ("customer", "Oh, I wasn't aware of that fee. Can you explain what it's for?"),
    ("agent", "Of course. This fee covers the installation of your new service upgrade."),
    ("customer", "I see. That makes sense now. Thank you for clarifying."),
    ("agent", "You're welcome. Is there anything else I can help you with today?"),
    ("customer", "No, that's all. Thank you for your help."),
    ("agent", "Thank you for calling. Have a great day!")],
   [("agent", "Hello, this is tech support. What seems to be the problem?"),
    ("customer", "My internet connection keeps dropping every few minutes."),
    ("agent", "I'm sorry to hear that. Let's troubleshoot this together."),
    ("agent", "Can you tell me what lights are showing on your modem?"),
    ("customer", "The power light is solid green, but the internet light is blinking red."),
    ("agent", "That indicates a connection issue. Let's try resetting your modem."),
    ("customer", "Okay, I've unplugged it. How long should I wait?"),
    ("agent", "Wait about 30 seconds, then plug it back in."),
    ("customer", "Alright, it's plugged back in now. The lights are coming back on."),
    ("agent", "Great. Let's wait for all the lights to stabilize."),
    ("customer", "Okay, the internet light is now solid green."),
    ("agent", "Perfect! Try accessing a website now."),
    ("customer", "Yes, it's working! Thank you so much!"),
    ("agent", "You're welcome. Call us if you have any more issues.")],
   [("agent", "Good afternoon, I'm calling about our special promotion."),
    ("customer", "What kind of promotion is it?"),
    ("agent", "We're offering 20% off on our premium plan for the next three months."),
    ("customer", "That sounds interesting. What does the premium plan include?"),
    ("agent", "It includes unlimited data, priority support, and access to exclusive features."),
    ("customer", "How much would it cost after the promotional period?"),
    ("agent", "After three months, it would be $49.99 per month."),
    ("customer", "That's a bit more than I'm paying now. Let me think about it."),
    ("agent", "I understand. Would you like me to email you the details?"),
    ("customer", "Yes, that would be helpful."),
    ("agent", "Great. I'll send that over shortly. Thank you for your time.")]]

/-- The inner template loop of `_generate_sample_data` (transcript.py lines
297-311): build the utterances of one sample conversation, returning the
final `current_time` as the conversation duration.  `conf j` and `gap j`
model the `random.random()` and `random.uniform(0.3, 1.0)` draws of the
`j`-th utterance. -/
def genUtts (conf gap : Nat → Rat) :
    List (String × String) → Rat → Nat → List Utterance × Rat
  | [], currentTime, _ => ([], currentTime)
  | (speaker, text) :: rest, currentTime, j =>
    let duration := ((countWords text : Nat) : Rat) * (1 / 2)
    let u : Utterance := ⟨text, speaker, currentTime, currentTime + duration,
      47 / 50 + conf j * (3 / 50), []⟩
    let r := genUtts conf gap rest (currentTime + duration + gap j) (j + 1)
    (u :: r.1, r.2)

/-- One iteration of the outer loop of `_generate_sample_data`
(transcript.py lines 290-322); `tmpl` is the `random.choice` template draw
and `dom/top/acc` the metadata draws for sample conversation `i`. -/
def genConv (i : Nat) (tmpl : List (String × String)) (dom top acc : String)
    (conf gap : Nat → Rat) : Conversation :=
  let r := genUtts conf gap tmpl 0 0
  { conversation_id := "conv_" ++ pad5 i
    utterances := r.1
    domain := dom
    topic := top
    accent := acc
    duration := r.2 }

/-- `_generate_sample_data` (transcript.py lines 234-324): 50 sample
conversations built from oracle-selected templates and metadata. -/
def generateSampleData (tch : Nat → List (String × String))
    (dch tpch ach : Nat → String) (conf gap : Nat → Nat → Rat) :
    List Conversation :=
  (List.range 50).map fun i =>
    genConv i (tch i) (dch i) (tpch i) (ach i) (conf i) (gap i)

/-- `_parse_huggingface_dataset` (transcript.py lines 152-190): parse at most
100 records, then fall back to the sample generator when zero conversations
were collected. -/
def parseHFDataset (conf : Nat → Nat → Rat)
    (tch : Nat → List (String × String)) (dch tpch ach : Nat → String)
    (gconf ggap : Nat → Nat → Rat) (records : List HFRec) :
    List Conversation :=
  let cs := (records.take 100).enum.map fun p => parseRecord (conf p.1) p.1 p.2
  if cs.length = 0 then generateSampleData tch dch tpch ach gconf ggap else cs

/-- `_load_dataset` (transcript.py lines 128-150): parse the upstream records
when the datasets library produced some (`some records`), otherwise — import
error or load failure — generate sample data.  Every path ends in a loaded
corpus; no exception escapes. -/
def loadDataset (conf : Nat → Nat → Rat)
    (tch : Nat → List (String × String)) (dch tpch ach : Nat → String)
    (gconf ggap : Nat → Nat → Rat) (hfData : Option (List HFRec)) :
    List Conversation :=
  match hfData with
  | some records => parseHFDataset conf tch dch tpch ach gconf ggap records
  | none => generateSampleData tch dch tpch ach gconf ggap

/-! Corpus loading, api/main.py side. -/

/-- The templates of the client-side `_generate_sample_data` (main.py lines
311-326). -/
def tcTemplates : List (List (String × String)) :=
  [[("agent", "Thank you for calling customer support. How may I help you today?"),
    ("customer", "Hi, I'm having trouble with my recent bill."),
    ("agent", "I understand your concern. Let me pull up your account."),
    ("customer", "Sure, my account number is 12345."),
    ("agent", "Thank you. I can see your account now.")],
   [("agent", "Hello, this is tech support. What's the problem?"),
    ("customer", "My internet keeps dropping every few minutes."),
    ("agent", "I'm sorry to hear that. Let's troubleshoot this."),
    ("customer", "Okay, what should I do?"),
    ("agent", "Can you check the lights on your modem?")]]

/-- The inner loop of the client-side `_generate_sample_data` (main.py lines
333-350): one flat utterance record per template line, with per-utterance
metadata draws. -/
def tcGenConvGo (convId : String) (dch tpch ach : Nat → String)
    (conf gap : Nat → Rat) :
    List (String × String) → Rat → Nat → List ClientUtt
  | [], _, _ => []
  | (speaker, text) :: rest, currentTime, idx =>
    let duration := ((countWords text : Nat) : Rat) * (1 / 2)
    { conversation_id := convId
      utterance_id := idx
      speaker := speaker
      text := text
      confidence := 47 / 50 + conf idx * (3 / 50)
      start_time := currentTime
      end_time := currentTime + duration
      domain := dch idx
      topic := tpch idx
      accent := ach idx } ::
    tcGenConvGo convId dch tpch ach conf gap rest
      (currentTime + duration + gap idx) (idx + 1)

/-- The client-side `_generate_sample_data` (main.py lines 301-352):
50 template-driven conversations appended as one flat record list. -/
def tcGenerateSampleData (tch : Nat → List (String × String))
    (dch tpch ach : Nat → Nat → String) (conf gap : Nat → Nat → Rat) :
    List ClientUtt :=
  ((List.range 50).map fun i =>
    tcGenConvGo ("conv_" ++ pad5 i) (dch i) (tpch i) (ach i) (conf i) (gap i)
      (tch i) 0 0).flatten

/-- The error `_load_from_local_file` actually raises on a file with zero
records: the average-conversation-length computation divides by the number
of distinct conversation ids (main.py lines 296-298). -/
inductive LoadError where
  | zeroDivision
deriving DecidableEq, Repr

/-- `TranscriptClient._load_from_local_file` (main.py lines 282-299): append
every decoded line, then compute the average utterances per conversation —
which divides by zero when no record was loaded. -/
def tcLoadFromLocalFile (records : List ClientUtt) :
    Except LoadError (List ClientUtt) :=
  let convs := records
  let conv_ids := (convs.map fun u => u.conversation_id).dedup
  if conv_ids.length = 0 then .error .zeroDivision
  else .ok convs

/-- `TranscriptClient._load_dataset` (main.py lines 270-280): load from the
local file when it exists, otherwise generate sample data. -/
def tcLoadDataset (fileRecords : Option (List ClientUtt))
    (tch : Nat → List (String × String)) (dch tpch ach : Nat → Nat → String)
    (conf gap : Nat → Nat → Rat) : Except LoadError (List ClientUtt) :=
  match fileRecords with
  | some records => tcLoadFromLocalFile records
  | none => .ok (tcGenerateSampleData tch dch tpch ach conf gap)

/-! Concrete corpora and readers used to instantiate the general theorems
and to decide the spec's worked examples. -/

/-- A concrete sample utterance. -/
def mkU (speaker text : String) (a b : Rat) : Utterance :=
  ⟨text, speaker, a, b, 1, []⟩

/-- Example conversation 1 of the spec's worked example: 3 utterances. -/
def convA : Conversation :=
  ⟨"convA", [mkU "agent" "a0" 0 1, mkU "customer" "a1" 1 2,
    mkU "agent" "a2" 2 3], "billing", "inbound", "american", 3⟩

/-- Example conversation 2 of the spec's worked example: 2 utterances. -/
def convB : Conversation :=
  ⟨"convB", [mkU "agent" "b0" 0 1, mkU "customer" "b1" 1 2],
    "sales", "outbound", "indian", 2⟩

/-- A conversation with no utterances, as produced by
`_parse_transcript_text` on a blank transcript. -/
def convE : Conversation := ⟨"convE", [], "billing", "inbound", "american", 0⟩

/-- The spec's worked corpus: 2 conversations of 3 and 2 utterances. -/
def corpusAB : List Conversation := [convA, convB]

/-- A corpus whose first conversation is empty. -/
def corpusEB : List Conversation := [convE, convB]

/-- A one-conversation, one-utterance corpus. -/
def corpus1 : List Conversation :=
  [⟨"convC", [mkU "agent" "c0" 0 1], "account", "inbound", "filipino", 1⟩]

/-- A reader over `corpusAB` with the given batch size and loop flag,
`max_utterances` unlimited. -/
def readerAB (k : Nat) (lp : Bool) : Reader :=
  ⟨1 / 10, 1, lp, -1, k, corpusAB, 0, 0, 0, 0⟩

/-- A looping reader over `corpusEB` with batch size 1. -/
def readerEB : Reader :=
  ⟨1 / 10, 1, true, -1, 1, corpusEB, 0, 0, 0, 0⟩

/-- A non-looping reader over `corpus1` with `max_utterances = 1`. -/
def readerMax : Reader :=
  ⟨1 / 10, 1, false, 1, 10, corpus1, 0, 0, 0, 0⟩

/-- A looping reader over `corpus1` with `max_utterances = 1`. -/
def readerMaxLoop : Reader :=
  ⟨1 / 10, 1, true, 1, 10, corpus1, 0, 0, 0, 0⟩

/-- A reader over `corpusAB` as freshly constructed after a process restart:
different pacing, construction instant and cursor fields, same corpus and
same loop/batch/limit options. -/
def readerAB2 (k : Nat) (lp : Bool) : Reader :=
  ⟨2 / 10, 3, lp, -1, k, corpusAB, 5, 7, 9, 100⟩

/-- A concrete stored client record. -/
def mkCU (cid : String) (uid : Nat) (sp txt : String) : ClientUtt :=
  ⟨cid, uid, sp, txt, 1, 0, 1, "billing", "inbound", "american"⟩

/-- A concrete `TranscriptClient` holding three records. -/
def clientC : TranscriptClient :=
  ⟨[mkCU "conv_00000" 0 "agent" "hello",
    mkCU "conv_00000" 1 "customer" "hi there",
    mkCU "conv_00001" 0 "agent" "good day"], 0, 3⟩

/-! Basic facts about the flattened corpus. -/

theorem projList_length (conv : Conversation) :
    ∀ (l : List Utterance) (i : Nat), (projList conv l i).length = l.length := by
  intro l
  induction l with
  | nil => intro i; rfl
  | cons u us ih => intro i; simp [projList, ih]

theorem projList_map_uid (conv : Conversation) :
    ∀ (l : List Utterance) (i : Nat),
      (projList conv l i).map (fun p => p.utterance_id) = List.range' i l.length := by
  intro l
  induction l with
  | nil => intro i; rfl
  | cons u us ih => intro i; simp [projList, List.range', ih]

theorem flatFrom_past : ∀ (convs : List Conversation) (ci ui : Nat),
    convs.length ≤ ci → flatFrom convs ci ui = [] := by
  intro convs
  induction convs with
  | nil => intro ci ui _; rfl
  | cons conv rest ih =>
    intro ci ui h
    match ci with
    | 0 => simp at h
    | ci' + 1 =>
      simp only [flatFrom]
      exact ih ci' ui (by simpa using h)

theorem flatFrom_skip : ∀ (convs : List Conversation) (ci ui : Nat),
    (convs.getD ci dConv).utterances.length ≤ ui →
    flatFrom convs ci ui = flatFrom convs (ci + 1) 0 := by
  intro convs
  induction convs with
  | nil => intro ci ui _; rfl
  | cons conv rest ih =>
    intro ci ui h
    match ci with
    | 0 =>
      simp only [List.getD_cons_zero] at h
      simp only [flatFrom, convFrom, List.drop_eq_nil_of_le h]
      rfl
    | ci' + 1 =>
      simp only [List.getD_cons_succ] at h
      simp only [flatFrom]
      exact ih ci' ui h

theorem flatFrom_emit : ∀ (convs : List Conversation) (ci ui : Nat),
    ui < (convs.getD ci dConv).utterances.length →
    flatFrom convs ci ui = rowAt convs ci ui :: flatFrom convs ci (ui + 1) := by
  intro convs
  induction convs with
  | nil =>
    intro ci ui h
    simp [dConv] at h
  | cons conv rest ih =>
    intro ci ui h
    match ci with
    | 0 =>
      simp only [List.getD_cons_zero] at h
      simp only [flatFrom, convFrom, rowAt, List.getD_cons_zero,
        List.drop_eq_getElem_cons h, projList, List.getD_eq_getElem _ _ h,
        List.cons_append]
    | ci' + 1 =>
      simp only [List.getD_cons_succ] at h
      simp only [flatFrom, rowAt, List.getD_cons_succ]
      exact ih ci' ui h

theorem flat_length (convs : List Conversation) :
    (flat convs).length = (convs.map fun conv => conv.utterances.length).sum := by
  unfold flat
  induction convs with
  | nil => rfl
  | cons conv rest ih =>
    simp only [flatFrom, convFrom, List.drop_zero, List.length_append,
      projList_length, List.map_cons, List.sum_cons]
    omega

theorem flat_cons (conv : Conversation) (rest : List Conversation) :
    flat (conv :: rest) = convFrom conv 0 ++ flat rest := rfl

/-! Step equations for the batch loop. -/

theorem readLoop_stop (chunk : Nat) (loopFlag : Bool) (delay startT : Rat)
    (convs : List Conversation) (fuel ci ui c t : Nat) (b : List Row)
    (hc : ¬ c < chunk) :
    readLoop chunk loopFlag delay startT convs (fuel + 1) ci ui c t b =
      (b, ci, ui, c) := by
  simp only [readLoop, if_neg hc]

theorem readLoop_break (chunk : Nat) (delay startT : Rat)
    (convs : List Conversation) (fuel ci ui c t : Nat) (b : List Row)
    (hc : c < chunk) (hci : convs.length ≤ ci) :
    readLoop chunk false delay startT convs (fuel + 1) ci ui c t b =
      (b, ci, ui, c) := by
  simp only [readLoop, if_pos hc, if_pos hci]
  simp

theorem readLoop_wrap (chunk : Nat) (delay startT : Rat)
    (convs : List Conversation) (fuel ci ui c t : Nat) (b : List Row)
    (hc : c < chunk) (hci : convs.length ≤ ci) :
    readLoop chunk true delay startT convs (fuel + 1) ci ui c t b =
      readLoop chunk true delay startT convs fuel 0 0 c t b := by
  simp only [readLoop, if_pos hc, if_pos hci]
  simp

theorem readLoop_skip (chunk : Nat) (loopFlag : Bool) (delay startT : Rat)
    (convs : List Conversation) (fuel ci ui c t : Nat) (b : List Row)
    (hc : c < chunk) (hci : ci < convs.length)
    (hui : (convs.getD ci dConv).utterances.length ≤ ui) :
    readLoop chunk loopFlag delay startT convs (fuel + 1) ci ui c t b =
      readLoop chunk loopFlag delay startT convs fuel (ci + 1) 0 c t b := by
  simp only [readLoop, if_pos hc, if_neg (Nat.not_le.mpr hci), if_pos hui]

theorem readLoop_emit (chunk : Nat) (loopFlag : Bool) (delay startT : Rat)
    (convs : List Conversation) (fuel ci ui c t : Nat) (b : List Row)
    (hc : c < chunk) (hci : ci < convs.length)
    (hui : ui < (convs.getD ci dConv).utterances.length) :
    readLoop chunk loopFlag delay startT convs (fuel + 1) ci ui c t b =
      readLoop chunk loopFlag delay startT convs fuel ci (ui + 1) (c + 1) t
        (b ++ [mkRow delay startT (convs.getD ci dConv)
          ((convs.getD ci dConv).utterances.getD ui dUtt) ui t c]) := by
  simp only [readLoop, if_pos hc, if_neg (Nat.not_le.mpr hci),
    if_neg (Nat.not_le.mpr hui)]

/-- The payload of an emitted row is the payload of its corpus position. -/
theorem mkRow_data (delay startT : Rat) (convs : List Conversation)
    (ci ui t c : Nat) :
    (mkRow delay startT (convs.getD ci dConv)
      ((convs.getD ci dConv).utterances.getD ui dUtt) ui t c).data =
      rowAt convs ci ui := rfl

/-- The loop only appends to its accumulated batch. -/
theorem readLoop_mono (chunk : Nat) (loopFlag : Bool) (delay startT : Rat)
    (convs : List Conversation) :
    ∀ (fuel ci ui c t : Nat) (b : List Row),
      ∃ E, (readLoop chunk loopFlag delay startT convs fuel ci ui c t b).1 =
        b ++ E := by
  intro fuel
  induction fuel with
  | zero => intro ci ui c t b; exact ⟨[], (List.append_nil b).symm⟩
  | succ fuel ih =>
    intro ci ui c t b
    by_cases hc : c < chunk
    · by_cases hci : convs.length ≤ ci
      · cases hlf : loopFlag with
        | false => rw [readLoop_break _ _ _ _ _ _ _ _ _ _ hc hci]
                   exact ⟨[], (List.append_nil b).symm⟩
        | true =>
          rw [readLoop_wrap _ _ _ _ _ _ _ _ _ _ hc hci]
          exact hlf ▸ ih 0 0 c t b
      · by_cases hui : (convs.getD ci dConv).utterances.length ≤ ui
        · rw [readLoop_skip _ _ _ _ _ _ _ _ _ _ _ hc (Nat.not_le.mp hci) hui]
          exact ih (ci + 1) 0 c t b
        · rw [readLoop_emit _ _ _ _ _ _ _ _ _ _ _ hc (Nat.not_le.mp hci)
            (Nat.not_le.mp hui)]
          obtain ⟨E, hE⟩ := ih ci (ui + 1) (c + 1) t
            (b ++ [mkRow delay startT (convs.getD ci dConv)
              ((convs.getD ci dConv).utterances.getD ui dUtt) ui t c])
          exact ⟨_ :: E, by simpa [List.append_assoc] using hE⟩
    · rw [readLoop_stop _ _ _ _ _ _ _ _ _ _ _ hc]
      exact ⟨[], (List.append_nil b).symm⟩

/-- The collected counter grows exactly by the number of rows appended to the
batch. -/
theorem readLoop_count (chunk : Nat) (loopFlag : Bool) (delay startT : Rat)
    (convs : List Conversation) :
    ∀ (fuel ci ui c t : Nat) (b : List Row),
      (readLoop chunk loopFlag delay startT convs fuel ci ui c t b).1.length + c =
      b.length +
        (readLoop chunk loopFlag delay startT convs fuel ci ui c t b).2.2.2 := by
  intro fuel
  induction fuel with
  | zero => intro ci ui c t b; simp [readLoop]
  | succ fuel ih =>
    intro ci ui c t b
    by_cases hc : c < chunk
    · by_cases hci : convs.length ≤ ci
      · cases hlf : loopFlag with
        | false => rw [readLoop_break _ _ _ _ _ _ _ _ _ _ hc hci]
        | true =>
          rw [readLoop_wrap _ _ _ _ _ _ _ _ _ _ hc hci]
          exact hlf ▸ ih 0 0 c t b
      · by_cases hui : (convs.getD ci dConv).utterances.length ≤ ui
        · rw [readLoop_skip _ _ _ _ _ _ _ _ _ _ _ hc (Nat.not_le.mp hci) hui]
          exact ih (ci + 1) 0 c t b
        · rw [readLoop_emit _ _ _ _ _ _ _ _ _ _ _ hc (Nat.not_le.mp hci)
            (Nat.not_le.mp hui)]
          have h := ih ci (ui + 1) (c + 1) t
            (b ++ [mkRow delay startT (convs.getD ci dConv)
              ((convs.getD ci dConv).utterances.getD ui dUtt) ui t c])
          simp only [List.length_append, List.length_cons, List.length_nil] at h ⊢
          omega
    · rw [readLoop_stop _ _ _ _ _ _ _ _ _ _ _ hc]

/-- The loop's row payloads and its final cursor do not depend on the pacing
delay, the reader's construction instant, the running total, or the rows
already accumulated — only the row timestamps do. -/
theorem readLoop_congr (chunk : Nat) (loopFlag : Bool) (d1 d2 s1 s2 : Rat)
    (convs : List Conversation) :
    ∀ (fuel ci ui c t1 t2 : Nat) (b1 b2 : List Row),
      b1.map Row.data = b2.map Row.data →
      (readLoop chunk loopFlag d1 s1 convs fuel ci ui c t1 b1).1.map Row.data =
        (readLoop chunk loopFlag d2 s2 convs fuel ci ui c t2 b2).1.map Row.data ∧
      (readLoop chunk loopFlag d1 s1 convs fuel ci ui c t1 b1).2 =
        (readLoop chunk loopFlag d2 s2 convs fuel ci ui c t2 b2).2 := by
  intro fuel
  induction fuel with
  | zero => intro ci ui c t1 t2 b1 b2 hb; exact ⟨hb, rfl⟩
  | succ fuel ih =>
    intro ci ui c t1 t2 b1 b2 hb
    by_cases hc : c < chunk
    · by_cases hci : convs.length ≤ ci
      · cases hlf : loopFlag with
        | false =>
          rw [readLoop_break _ _ _ _ _ _ _ _ _ _ hc hci,
            readLoop_break _ _ _ _ _ _ _ _ _ _ hc hci]
          exact ⟨hb, rfl⟩
        | true =>
          rw [readLoop_wrap _ _ _ _ _ _ _ _ _ _ hc hci,
            readLoop_wrap _ _ _ _ _ _ _ _ _ _ hc hci]
          exact hlf ▸ ih 0 0 c t1 t2 b1 b2 hb
      · by_cases hui : (convs.getD ci dConv).utterances.length ≤ ui
        · rw [readLoop_skip _ _ _ _ _ _ _ _ _ _ _ hc (Nat.not_le.mp hci) hui,
            readLoop_skip _ _ _ _ _ _ _ _ _ _ _ hc (Nat.not_le.mp hci) hui]
          exact ih (ci + 1) 0 c t1 t2 b1 b2 hb
        · rw [readLoop_emit _ _ _ _ _ _ _ _ _ _ _ hc (Nat.not_le.mp hci)
            (Nat.not_le.mp hui),
            readLoop_emit _ _ _ _ _ _ _ _ _ _ _ hc (Nat.not_le.mp hci)
            (Nat.not_le.mp hui)]
          refine ih ci (ui + 1) (c + 1) t1 t2 _ _ ?_
          simp only [List.map_append, List.map_cons, List.map_nil, hb,
            mkRow_data]
    · rw [readLoop_stop _ _ _ _ _ _ _ _ _ _ _ hc,
        readLoop_stop _ _ _ _ _ _ _ _ _ _ _ hc]
      exact ⟨hb, rfl⟩

/-- Full characterisation of the loop when looping is disabled: it emits the
next `chunk - c` corpus positions (or all remaining ones), the final cursor
addresses exactly the remaining suffix, and a short batch means the corpus
suffix was exhausted. -/
theorem readLoop_noLoop (chunk : Nat) (delay startT : Rat)
    (convs : List Conversation) :
    ∀ (fuel ci ui c t : Nat) (b : List Row), c ≤ chunk →
      (chunk - c) + (convs.length - ci) + 1 ≤ fuel →
      ∃ (E : List Row) (ci' ui' : Nat),
        readLoop chunk false delay startT convs fuel ci ui c t b =
          (b ++ E, ci', ui', c + E.length) ∧
        E.map Row.data = (flatFrom convs ci ui).take (chunk - c) ∧
        flatFrom convs ci' ui' = (flatFrom convs ci ui).drop (chunk - c) ∧
        (c + E.length < chunk → flatFrom convs ci' ui' = []) := by
  intro fuel
  induction fuel with
  | zero => intro ci ui c t b _ hfuel; omega
  | succ fuel ih =>
    intro ci ui c t b hc hfuel
    by_cases hlt : c < chunk
    · by_cases hci : convs.length ≤ ci
      · rw [readLoop_break _ _ _ _ _ _ _ _ _ _ hlt hci]
        refine ⟨[], ci, ui, by simp, ?_, ?_, ?_⟩
        · simp [flatFrom_past convs ci ui hci]
        · simp [flatFrom_past convs ci ui hci]
        · intro _; exact flatFrom_past convs ci ui hci
      · by_cases hui : (convs.getD ci dConv).utterances.length ≤ ui
        · rw [readLoop_skip _ _ _ _ _ _ _ _ _ _ _ hlt (Nat.not_le.mp hci) hui]
          rw [flatFrom_skip convs ci ui hui]
          exact ih (ci + 1) 0 c t b hc (by omega)
        · rw [readLoop_emit _ _ _ _ _ _ _ _ _ _ _ hlt (Nat.not_le.mp hci)
            (Nat.not_le.mp hui)]
          obtain ⟨E, ci', ui', htup, hmap, hdrop, hlast⟩ :=
            ih ci (ui + 1) (c + 1) t
              (b ++ [mkRow delay startT (convs.getD ci dConv)
                ((convs.getD ci dConv).utterances.getD ui dUtt) ui t c])
              (by omega) (by omega)
          refine ⟨mkRow delay startT (convs.getD ci dConv)
            ((convs.getD ci dConv).utterances.getD ui dUtt) ui t c :: E,
            ci', ui', ?_, ?_, ?_, ?_⟩
          · rw [htup]
            simp only [List.append_assoc, List.cons_append, List.nil_append,
              List.length_cons, Prod.mk.injEq]
            exact ⟨trivial, trivial, trivial, by omega⟩
          · have hs : chunk - c = (chunk - (c + 1)) + 1 := by omega
            rw [flatFrom_emit convs ci ui (Nat.not_le.mp hui), hs,
              List.take_succ_cons]
            simp only [List.map_cons, mkRow_data, hmap]
          · have hs : chunk - c = (chunk - (c + 1)) + 1 := by omega
            rw [flatFrom_emit convs ci ui (Nat.not_le.mp hui), hs,
              List.drop_succ_cons]
            exact hdrop
          · intro hlen
            refine hlast ?_
            simp only [List.length_cons] at hlen
            omega
    · have hceq : c = chunk := by omega
      rw [readLoop_stop _ _ _ _ _ _ _ _ _ _ _ hlt]
      refine ⟨[], ci, ui, by simp, ?_, ?_, ?_⟩
      · simp [hceq]
      · simp [hceq]
      · intro h; simp at h; omega

theorem readFuel_big (chunk n ci c : Nat) :
    (chunk - c) + (n - ci) + 1 ≤ readFuel chunk n := by
  have h : readFuel chunk n = 2 * (n * chunk) + 3 * chunk + 2 * n + 3 := by
    unfold readFuel; ring
  have h1 : chunk - c ≤ chunk := Nat.sub_le _ _
  have h2 : n - ci ≤ n := Nat.sub_le _ _
  omega

theorem readFuel_eq (chunk n : Nat) :
    readFuel chunk n = chunk * (2 * n + 3) + (2 * n + 3) := by
  unfold readFuel; ring

/-- `read` with looping disabled and no `max_utterances` limit: the batch is
the next `chunk_size` (or all remaining) corpus positions, the new offset's
total is the old one plus the batch length, the new cursor addresses the
remaining suffix, and a short batch means exhaustion. -/
theorem read_noLoop (r : Reader) (hL : r.loop = false)
    (hM : r.max_utterances ≤ 0) (o : Offset) :
    ∃ (B : List Row) (ci' ui' : Nat),
      (Reader.read r o).1 = (B, ⟨ci', ui', o.total_sent + B.length⟩) ∧
      B.map Row.data =
        (flatFrom r.conversations o.conversation_idx o.utterance_idx).take
          r.chunk_size ∧
      flatFrom r.conversations ci' ui' =
        (flatFrom r.conversations o.conversation_idx o.utterance_idx).drop
          r.chunk_size ∧
      (B.length < r.chunk_size → flatFrom r.conversations ci' ui' = []) := by
  obtain ⟨ci, ui, t⟩ := o
  simp only []
  by_cases he : r.conversations.isEmpty
  · have hnil : r.conversations = [] := by
      cases hh : r.conversations with
      | nil => rfl
      | cons a l => rw [hh] at he; simp at he
    refine ⟨[], ci, ui, ?_, ?_, ?_, ?_⟩
    · simp [Reader.read, he]
    · simp [hnil, flatFrom]
    · simp [hnil, flatFrom]
    · intro _; simp [hnil, flatFrom]
  · obtain ⟨E, ci', ui', htup, hmap, hdrop, hlast⟩ :=
      readLoop_noLoop r.chunk_size r.utterance_delay r.start_time
        r.conversations (readFuel r.chunk_size r.conversations.length)
        ci ui 0 t [] (Nat.zero_le _)
        (readFuel_big r.chunk_size r.conversations.length ci 0)
    refine ⟨E, ci', ui', ?_, by simpa using hmap, by simpa using hdrop, ?_⟩
    · simp only [Reader.read, if_neg he]
      rw [if_neg (by rintro ⟨h1, -, -⟩; omega)]
      simp only [hL] at htup ⊢
      rw [htup]
      simp
    · intro hlen
      exact hlast (by simpa using hlen)

/-- Invariant of iterated `read` calls with looping disabled: starting from a
cursor that addresses the suffix of the corpus from position `s` on, `n`
calls emit exactly the next `n * chunk_size` positions and leave a cursor
addressing the rest. -/
theorem reads_inv (r : Reader) (hL : r.loop = false)
    (hM : r.max_utterances ≤ 0) :
    ∀ (n ci ui t s : Nat),
      flatFrom r.conversations ci ui = (flat r.conversations).drop s →
      (reads r n ⟨ci, ui, t⟩).1.map Row.data =
        ((flat r.conversations).drop s).take (n * r.chunk_size) ∧
      flatFrom r.conversations (reads r n ⟨ci, ui, t⟩).2.conversation_idx
        (reads r n ⟨ci, ui, t⟩).2.utterance_idx =
        (flat r.conversations).drop (s + n * r.chunk_size) := by
  intro n
  induction n with
  | zero =>
    intro ci ui t s hs
    simp only [reads, Nat.zero_mul, List.take_zero, List.map_nil,
      Nat.add_zero]
    exact ⟨trivial, hs⟩
  | succ n ih =>
    intro ci ui t s hs
    obtain ⟨B, ci', ui', htup, hmap, hdrop, -⟩ :=
      read_noLoop r hL hM ⟨ci, ui, t⟩
    have hdrop' : flatFrom r.conversations ci' ui' =
        (flat r.conversations).drop (s + r.chunk_size) := by
      rw [hdrop, hs, List.drop_drop]
    have hrec := ih ci' ui' (t + B.length) (s + r.chunk_size) hdrop'
    simp only [reads]
    rw [htup]
    simp only [List.map_append]
    constructor
    · rw [hrec.1, hmap, hs]
      have harith : (n + 1) * r.chunk_size = r.chunk_size + n * r.chunk_size := by
        ring
      rw [harith, List.take_add, List.drop_drop]
    · rw [hrec.2]
      have harith : s + r.chunk_size + n * r.chunk_size =
          s + (n + 1) * r.chunk_size := by ring
      rw [harith]

/-! Lemmas on the emission distance when looping is enabled. -/

theorem convFrom_zero_nil_iff (c : Conversation) :
    convFrom c 0 = [] ↔ c.utterances = [] := by
  unfold convFrom
  rw [List.drop_zero]
  cases h : c.utterances with
  | nil => simp [projList]
  | cons u us => simp [projList]

theorem dNoWrap_none_iff :
    ∀ (l : List Conversation), dNoWrap l = none ↔ flat l = [] := by
  intro l
  induction l with
  | nil => simp [dNoWrap, flat, flatFrom]
  | cons c rest ih =>
    by_cases hce : c.utterances.isEmpty
    · have hcf : convFrom c 0 = [] :=
        (convFrom_zero_nil_iff c).mpr (List.isEmpty_iff.mp hce)
      simp [dNoWrap, hce, flat_cons, hcf, Option.map_eq_none', ih]
    · have hcf : convFrom c 0 ≠ [] := fun h =>
        (List.isEmpty_eq_false.mp (by simpa using hce))
          ((convFrom_zero_nil_iff c).mp h)
      simp [dNoWrap, hce, flat_cons, List.append_eq_nil, hcf]

theorem dNoWrap_cons_empty (c : Conversation) (rest : List Conversation)
    (h : c.utterances.isEmpty) :
    dNoWrap (c :: rest) = (dNoWrap rest).map (· + 1) := by
  simp only [dNoWrap, if_pos h]

theorem dNoWrap_cons_nonempty (c : Conversation) (rest : List Conversation)
    (h : ¬ c.utterances.isEmpty = true) :
    dNoWrap (c :: rest) = some 0 := by
  simp only [dNoWrap, if_neg h]

theorem dNoWrap_lt_length :
    ∀ (l : List Conversation) (k : Nat), dNoWrap l = some k → k < l.length := by
  intro l
  induction l with
  | nil => intro k h; simp [dNoWrap] at h
  | cons c rest ih =>
    intro k h
    by_cases hce : c.utterances.isEmpty
    · rw [dNoWrap_cons_empty c rest hce] at h
      match hk : dNoWrap rest with
      | none => rw [hk] at h; simp at h
      | some k' =>
        rw [hk] at h
        simp only [Option.map_some', Option.some.injEq] at h
        have := ih k' hk
        simp only [List.length_cons]
        omega
    · rw [dNoWrap_cons_nonempty c rest hce] at h
      simp only [Option.some.injEq] at h
      simp [← h]

theorem seekDist_some (convs : List Conversation) (a k : Nat)
    (h : dNoWrap (convs.drop a) = some k) : seekDist convs a = k := by
  unfold seekDist
  rw [h]

theorem seekDist_none (convs : List Conversation) (a : Nat)
    (h : dNoWrap (convs.drop a) = none) :
    seekDist convs a = (convs.length - a) + 1 + (dNoWrap convs).getD 0 := by
  unfold seekDist
  rw [h]

/-- The cursor `(a, 0)` with `a ≤ length` is exactly `seekDist a` non-emitting
iterations away from the next emission. -/
theorem dist_at_zero (convs : List Conversation)
    (hNE : dNoWrap convs ≠ none) :
    ∀ a, a ≤ convs.length → distToEmit convs a 0 = seekDist convs a := by
  intro a ha
  rcases Nat.lt_or_ge a convs.length with hlt | hge
  · have hdrop : convs.drop a = convs.getD a dConv :: convs.drop (a + 1) := by
      rw [List.getD_eq_getElem _ _ hlt]
      exact List.drop_eq_getElem_cons hlt
    by_cases hce : (convs.getD a dConv).utterances.isEmpty
    · have hcount : (convs.getD a dConv).utterances.length = 0 := by
        rw [List.isEmpty_iff.mp hce]; rfl
      have hd : distToEmit convs a 0 = 1 + seekDist convs (a + 1) := by
        unfold distToEmit
        rw [if_pos hlt, if_neg (by omega)]
      have hmap : dNoWrap (convs.drop a) =
          (dNoWrap (convs.drop (a + 1))).map (· + 1) := by
        rw [hdrop]
        exact dNoWrap_cons_empty _ _ hce
      match hk : dNoWrap (convs.drop (a + 1)) with
      | none =>
        have h1 := seekDist_none convs a (by rw [hmap, hk]; rfl)
        have h2 := seekDist_none convs (a + 1) hk
        rw [hd, h1, h2]
        omega
      | some k =>
        have h1 := seekDist_some convs a (k + 1) (by rw [hmap, hk]; rfl)
        have h2 := seekDist_some convs (a + 1) k hk
        rw [hd, h1, h2]
        omega
    · have hne : (convs.getD a dConv).utterances ≠ [] := by
        intro hh
        rw [hh] at hce
        exact hce rfl
      have hcount : 0 < (convs.getD a dConv).utterances.length :=
        List.length_pos.mpr hne
      have hd : distToEmit convs a 0 = 0 := by
        unfold distToEmit
        rw [if_pos hlt, if_pos hcount]
      have hsome : dNoWrap (convs.drop a) = some 0 := by
        rw [hdrop]
        exact dNoWrap_cons_nonempty _ _ hce
      rw [hd, seekDist_some convs a 0 hsome]
  · have haeq : a = convs.length := by omega
    subst haeq
    have hd : distToEmit convs convs.length 0 = 1 + seekDist convs 0 := by
      unfold distToEmit
      rw [if_neg (by omega)]
    have hnone : dNoWrap (convs.drop convs.length) = none := by
      rw [List.drop_eq_nil_of_le (le_refl _)]
      rfl
    have h1 := seekDist_none convs convs.length hnone
    match hk : dNoWrap convs with
    | none => exact absurd hk hNE
    | some k =>
      have h2 := seekDist_some convs 0 k (by rw [List.drop_zero]; exact hk)
      rw [hd, h1, h2, hk]
      simp only [Option.getD_some]
      omega

theorem seekDist_le (convs : List Conversation) (a : Nat) :
    seekDist convs a ≤ 2 * convs.length + 1 := by
  match hk : dNoWrap (convs.drop a) with
  | some k =>
    rw [seekDist_some convs a k hk]
    have := dNoWrap_lt_length _ k hk
    rw [List.length_drop] at this
    omega
  | none =>
    rw [seekDist_none convs a hk]
    match hk2 : dNoWrap convs with
    | none => simp only [Option.getD_none]; omega
    | some k2 =>
      have := dNoWrap_lt_length _ k2 hk2
      simp only [Option.getD_some]
      omega

theorem distToEmit_le (convs : List Conversation) (ci ui : Nat) :
    distToEmit convs ci ui ≤ 2 * convs.length + 2 := by
  unfold distToEmit
  split
  · split
    · omega
    · have := seekDist_le convs (ci + 1); omega
  · have := seekDist_le convs 0; omega

/-- If the cursor is zero iterations from an emission, it addresses a live
corpus position. -/
theorem distToEmit_zero (convs : List Conversation) (ci ui : Nat)
    (h : distToEmit convs ci ui = 0) :
    ci < convs.length ∧ ui < (convs.getD ci dConv).utterances.length := by
  unfold distToEmit at h
  by_cases hci : ci < convs.length
  · rw [if_pos hci] at h
    by_cases hui : ui < (convs.getD ci dConv).utterances.length
    · exact ⟨hci, hui⟩
    · rw [if_neg hui] at h; omega
  · rw [if_neg hci] at h; omega

/-- With looping enabled on a corpus holding at least one utterance, the
batch loop always fills the whole batch: the final collected count is
exactly `chunk`. -/
theorem readLoop_full (chunk : Nat) (delay startT : Rat)
    (convs : List Conversation) (hNE : flat convs ≠ []) :
    ∀ (fuel ci ui c t : Nat) (b : List Row), c ≤ chunk →
      (chunk - c) * (2 * convs.length + 3) + distToEmit convs ci ui + 1 ≤ fuel →
      (readLoop chunk true delay startT convs fuel ci ui c t b).2.2.2 =
        chunk := by
  have hNW : dNoWrap convs ≠ none := fun h => hNE ((dNoWrap_none_iff convs).mp h)
  intro fuel
  induction fuel with
  | zero => intro ci ui c t b _ hfuel; omega
  | succ fuel ih =>
    intro ci ui c t b hc hfuel
    by_cases hlt : c < chunk
    · by_cases hci : convs.length ≤ ci
      · rw [readLoop_wrap _ _ _ _ _ _ _ _ _ _ hlt hci]
        have hstep : distToEmit convs ci ui = 1 + seekDist convs 0 := by
          unfold distToEmit
          rw [if_neg (by omega)]
        have hz : distToEmit convs 0 0 = seekDist convs 0 :=
          dist_at_zero convs hNW 0 (Nat.zero_le _)
        exact ih 0 0 c t b hc (by omega)
      · by_cases hui : (convs.getD ci dConv).utterances.length ≤ ui
        · rw [readLoop_skip _ _ _ _ _ _ _ _ _ _ _ hlt (Nat.not_le.mp hci) hui]
          have hstep : distToEmit convs ci ui = 1 + seekDist convs (ci + 1) := by
            unfold distToEmit
            rw [if_pos (Nat.not_le.mp hci), if_neg (by omega)]
          have hz : distToEmit convs (ci + 1) 0 = seekDist convs (ci + 1) :=
            dist_at_zero convs hNW (ci + 1) (Nat.not_le.mp hci)
          exact ih (ci + 1) 0 c t b hc (by omega)
        · rw [readLoop_emit _ _ _ _ _ _ _ _ _ _ _ hlt (Nat.not_le.mp hci)
            (Nat.not_le.mp hui)]
          have hb := distToEmit_le convs ci (ui + 1)
          have hmul : (chunk - c) * (2 * convs.length + 3) =
              (chunk - (c + 1)) * (2 * convs.length + 3) +
                (2 * convs.length + 3) := by
            have hsub : chunk - c = (chunk - (c + 1)) + 1 := by omega
            rw [hsub]
            ring
          exact ih ci (ui + 1) (c + 1) t _ (by omega) (by omega)
    · rw [readLoop_stop _ _ _ _ _ _ _ _ _ _ _ hlt]
      show c = chunk
      omega

/-- With looping enabled on a corpus holding at least one utterance, the
first row the batch loop emits is the head of the remaining suffix followed
by the wrapped-around corpus. -/
theorem readLoop_head (chunk : Nat) (delay startT : Rat)
    (convs : List Conversation) (hNE : flat convs ≠ []) :
    ∀ (fuel ci ui c t : Nat) (b : List Row), c < chunk →
      distToEmit convs ci ui + 1 ≤ fuel →
      ∃ (w : Row) (E : List Row),
        (readLoop chunk true delay startT convs fuel ci ui c t b).1 =
          b ++ w :: E ∧
        some w.data = (flatFrom convs ci ui ++ flat convs).head? := by
  have hNW : dNoWrap convs ≠ none := fun h => hNE ((dNoWrap_none_iff convs).mp h)
  intro fuel
  induction fuel with
  | zero => intro ci ui c t b _ hfuel; omega
  | succ fuel ih =>
    intro ci ui c t b hc hfuel
    by_cases hci : convs.length ≤ ci
    · rw [readLoop_wrap _ _ _ _ _ _ _ _ _ _ hc hci]
      have hstep : distToEmit convs ci ui = 1 + seekDist convs 0 := by
        unfold distToEmit
        rw [if_neg (by omega)]
      have hz : distToEmit convs 0 0 = seekDist convs 0 :=
        dist_at_zero convs hNW 0 (Nat.zero_le _)
      obtain ⟨w, E, hw, hdata⟩ := ih 0 0 c t b hc (by omega)
      refine ⟨w, E, hw, ?_⟩
      rw [hdata, flatFrom_past convs ci ui hci]
      have hself : flatFrom convs 0 0 = flat convs := rfl
      rw [hself, List.nil_append, List.head?_append, Option.or_self]
    · by_cases hui : (convs.getD ci dConv).utterances.length ≤ ui
      · rw [readLoop_skip _ _ _ _ _ _ _ _ _ _ _ hc (Nat.not_le.mp hci) hui]
        have hstep : distToEmit convs ci ui = 1 + seekDist convs (ci + 1) := by
          unfold distToEmit
          rw [if_pos (Nat.not_le.mp hci), if_neg (by omega)]
        have hz : distToEmit convs (ci + 1) 0 = seekDist convs (ci + 1) :=
          dist_at_zero convs hNW (ci + 1) (Nat.not_le.mp hci)
        obtain ⟨w, E, hw, hdata⟩ := ih (ci + 1) 0 c t b hc (by omega)
        refine ⟨w, E, hw, ?_⟩
        rw [hdata, flatFrom_skip convs ci ui hui]
      · rw [readLoop_emit _ _ _ _ _ _ _ _ _ _ _ hc (Nat.not_le.mp hci)
          (Nat.not_le.mp hui)]
        obtain ⟨E, hE⟩ := readLoop_mono chunk true delay startT convs fuel
          ci (ui + 1) (c + 1) t
          (b ++ [mkRow delay startT (convs.getD ci dConv)
            ((convs.getD ci dConv).utterances.getD ui dUtt) ui t c])
        refine ⟨mkRow delay startT (convs.getD ci dConv)
          ((convs.getD ci dConv).utterances.getD ui dUtt) ui t c, E, ?_, ?_⟩
        · rw [hE]
          simp [List.append_assoc]
        · rw [mkRow_data]
          rw [flatFrom_emit convs ci ui (Nat.not_le.mp hui)]
          simp

/-! Read-level corollaries. -/

theorem isEmpty_false_of_flat_ne (convs : List Conversation)
    (h : flat convs ≠ []) : convs.isEmpty = false := by
  cases convs with
  | nil => exact absurd rfl h
  | cons c rest => rfl

/-- A `read` call never touches the stored corpus: the conversations list of
the post-call instance is the pre-call one, on every path. -/
theorem read_preserves_conversations (r : Reader) (o : Offset) :
    (Reader.read r o).2.conversations = r.conversations := by
  unfold Reader.read
  by_cases he : r.conversations.isEmpty
  · rw [if_pos he]
  · rw [if_neg he]
    by_cases hg : r.max_utterances > 0 ∧ (o.total_sent : Int) ≥ r.max_utterances
        ∧ r.loop = false
    · rw [if_pos hg]
    · rw [if_neg hg]

/-- The offset returned by `read` carries the starting total plus the batch
length, on every path. -/
theorem read_total (r : Reader) (o : Offset) :
    (Reader.read r o).1.2.total_sent =
      o.total_sent + (Reader.read r o).1.1.length := by
  unfold Reader.read
  by_cases he : r.conversations.isEmpty
  · rw [if_pos he]; rfl
  · rw [if_neg he]
    by_cases hg : r.max_utterances > 0 ∧ (o.total_sent : Int) ≥ r.max_utterances
        ∧ r.loop = false
    · rw [if_pos hg]; rfl
    · rw [if_neg hg]
      have hcount := readLoop_count r.chunk_size r.loop r.utterance_delay
        r.start_time r.conversations
        (readFuel r.chunk_size r.conversations.length)
        o.conversation_idx o.utterance_idx 0 o.total_sent []
      simp only [List.length_nil, Nat.add_zero, Nat.zero_add] at hcount
      simp only []
      omega

/-- With looping disabled and the `max_utterances` limit reached, `read`
returns an empty batch and the starting offset unchanged. -/
theorem read_gate (r : Reader) (o : Offset) (hL : r.loop = false)
    (hm : 0 < r.max_utterances) (ht : r.max_utterances ≤ (o.total_sent : Int)) :
    (Reader.read r o).1 = ([], o) := by
  unfold Reader.read
  by_cases he : r.conversations.isEmpty
  · rw [if_pos he]
  · rw [if_neg he, if_pos ⟨hm, ht, hL⟩]

/-- With looping enabled, the `max_utterances` check is inert: `read` returns
the same batch and offset as with the limit disabled. -/
theorem read_ignores_max (r : Reader) (o : Offset) (hL : r.loop = true) :
    (Reader.read r o).1 =
      (Reader.read { r with max_utterances := -1 } o).1 := by
  unfold Reader.read
  by_cases he : r.conversations.isEmpty
  · rw [if_pos he, if_pos he]
  · rw [if_neg he, if_neg he,
      if_neg (fun h => by rw [hL] at h; exact absurd h.2.2 (by simp)),
      if_neg (fun h => by exact absurd h.1 (by norm_num))]

/-- With looping enabled on a corpus holding at least one utterance, every
`read` call returns a full batch of exactly `chunk_size` rows. -/
theorem read_full (r : Reader) (o : Offset) (hL : r.loop = true)
    (hNE : flat r.conversations ≠ []) :
    (Reader.read r o).1.1.length = r.chunk_size := by
  have he := isEmpty_false_of_flat_ne r.conversations hNE
  unfold Reader.read
  rw [if_neg (by rw [he]; exact fun h => by cases h),
    if_neg (fun h => by rw [hL] at h; exact absurd h.2.2 (by simp))]
  have hcount := readLoop_count r.chunk_size r.loop r.utterance_delay
    r.start_time r.conversations (readFuel r.chunk_size r.conversations.length)
    o.conversation_idx o.utterance_idx 0 o.total_sent []
  have hbound : (r.chunk_size - 0) * (2 * r.conversations.length + 3) +
      distToEmit r.conversations o.conversation_idx o.utterance_idx + 1 ≤
      readFuel r.chunk_size r.conversations.length := by
    rw [Nat.sub_zero, readFuel_eq]
    have := distToEmit_le r.conversations o.conversation_idx o.utterance_idx
    omega
  have hfull := readLoop_full r.chunk_size r.utterance_delay r.start_time
    r.conversations hNE (readFuel r.chunk_size r.conversations.length)
    o.conversation_idx o.utterance_idx 0 o.total_sent [] (Nat.zero_le _)
    hbound
  rw [hL] at hcount ⊢
  simp only [List.length_nil, Nat.add_zero, Nat.zero_add] at hcount
  simp only []
  omega

/-- With looping enabled, reading from a cursor that has exhausted the corpus
(`flatFrom = []`) produces a batch whose first row is the head of the whole
corpus: the stream wraps to the first conversation holding any utterance. -/
theorem read_wrap_head (r : Reader) (ci ui t : Nat) (hL : r.loop = true)
    (hNE : flat r.conversations ≠ []) (hk : 0 < r.chunk_size)
    (hend : flatFrom r.conversations ci ui = []) :
    ∃ (w : Row) (E : List Row),
      (Reader.read r ⟨ci, ui, t⟩).1.1 = w :: E ∧
      some w.data = (flat r.conversations).head? := by
  have he := isEmpty_false_of_flat_ne r.conversations hNE
  unfold Reader.read
  rw [if_neg (by rw [he]; exact fun h => by cases h),
    if_neg (fun h => by rw [hL] at h; exact absurd h.2.2 (by simp))]
  have hbound : distToEmit r.conversations ci ui + 1 ≤
      readFuel r.chunk_size r.conversations.length := by
    rw [readFuel_eq]
    have := distToEmit_le r.conversations ci ui
    omega
  obtain ⟨w, E, hw, hdata⟩ := readLoop_head r.chunk_size r.utterance_delay
    r.start_time r.conversations hNE
    (readFuel r.chunk_size r.conversations.length) ci ui 0 t [] hk hbound
  rw [hL]
  refine ⟨w, E, ?_, ?_⟩
  · simp only []
    rw [hw, List.nil_append]
  · rw [hdata, hend, List.nil_append]

/-! Claim theorems. -/

/-- C1: for a fixed corpus, `read` is a pure function of `(corpus, offset)`:
two readers sharing the corpus and the loop/batch/limit options — but
possibly differing in pacing, construction instant and cursor fields, as a
freshly constructed reader after a process restart does — produce the same
sequence of utterance payloads (`conversation_id, utterance_id, speaker,
text, confidence, start_time, end_time, domain, topic, accent`) and the same
resulting offset from the same starting offset. -/
theorem claim1_read_deterministic (r1 r2 : Reader) (o : Offset)
    (hconv : r1.conversations = r2.conversations)
    (hloop : r1.loop = r2.loop)
    (hchunk : r1.chunk_size = r2.chunk_size)
    (hmax : r1.max_utterances = r2.max_utterances) :
    (Reader.read r1 o).1.1.map Row.data =
      (Reader.read r2 o).1.1.map Row.data ∧
    (Reader.read r1 o).1.2 = (Reader.read r2 o).1.2 := by
  unfold Reader.read
  by_cases he : r2.conversations.isEmpty
  · rw [if_pos he, if_pos (by rw [hconv]; exact he)]
    exact ⟨rfl, rfl⟩
  · rw [if_neg he, if_neg (by rw [hconv]; exact he)]
    by_cases hg : r2.max_utterances > 0 ∧
        (o.total_sent : Int) ≥ r2.max_utterances ∧ r2.loop = false
    · rw [if_pos hg, if_pos (by rw [hmax, hloop]; exact hg)]
      exact ⟨rfl, rfl⟩
    · rw [if_neg hg, if_neg (by rw [hmax, hloop]; exact hg)]
      simp only [hchunk, hloop, hconv]
      have hc := readLoop_congr r2.chunk_size r2.loop r1.utterance_delay
        r2.utterance_delay r1.start_time r2.start_time r2.conversations
        (readFuel r2.chunk_size r2.conversations.length)
        o.conversation_idx o.utterance_idx 0 o.total_sent o.total_sent
        [] [] rfl
      exact ⟨hc.1, by rw [hc.2]⟩

/-- Witness for C1 at a concrete corpus, offset and restarted reader. -/
theorem claim1_witness :
    (Reader.read (readerAB 4 false) ⟨1, 1, 4⟩).1.1.map Row.data =
      (Reader.read (readerAB2 4 false) ⟨1, 1, 4⟩).1.1.map Row.data ∧
    (Reader.read (readerAB 4 false) ⟨1, 1, 4⟩).1.2 =
      (Reader.read (readerAB2 4 false) ⟨1, 1, 4⟩).1.2 :=
  claim1_read_deterministic (readerAB 4 false) (readerAB2 4 false)
    ⟨1, 1, 4⟩ rfl rfl rfl rfl

/-- C2: for every non-empty corpus, starting from the zero offset with
looping disabled (and the `max_utterances` limit at its unlimited default),
enough `read` calls emit exactly the whole corpus — one payload per stored
utterance, `sum(conversation utterance counts)` records in total — after
which every further batch is empty; and within each conversation the
emitted utterance ids replay `0, 1, ..., count-1` in original order. -/
theorem claim2_total_coverage (r : Reader) (n : Nat) (hL : r.loop = false)
    (hM : r.max_utterances ≤ 0) (hNE : r.conversations ≠ [])
    (hn : (flat r.conversations).length ≤ n * r.chunk_size) :
    (reads r n initialOffset).1.map Row.data = flat r.conversations ∧
    (reads r n initialOffset).1.length =
      (r.conversations.map fun conv => conv.utterances.length).sum ∧
    (∀ m, n ≤ m → (Reader.read r (reads r m initialOffset).2).1.1 = []) ∧
    (∀ conv ∈ r.conversations,
      (convFrom conv 0).map (fun p => p.utterance_id) =
        List.range conv.utterances.length) := by
  simp only [initialOffset]
  have h0 : flatFrom r.conversations 0 0 = (flat r.conversations).drop 0 := by
    rw [List.drop_zero]
    rfl
  have hinv := reads_inv r hL hM n 0 0 0 0 h0
  have hfirst : (reads r n ⟨0, 0, 0⟩).1.map Row.data =
      flat r.conversations := by
    have := hinv.1
    rw [List.drop_zero, List.take_of_length_le hn] at this
    exact this
  refine ⟨hfirst, ?_, ?_, ?_⟩
  · have hlen := congrArg List.length hfirst
    rw [List.length_map] at hlen
    rw [hlen, flat_length]
  · intro m hm
    have hinvm := reads_inv r hL hM m 0 0 0 0 h0
    have hmchunk : (flat r.conversations).length ≤ m * r.chunk_size :=
      le_trans hn (Nat.mul_le_mul_right _ hm)
    have hexh : flatFrom r.conversations
        (reads r m ⟨0, 0, 0⟩).2.conversation_idx
        (reads r m ⟨0, 0, 0⟩).2.utterance_idx = [] := by
      have := hinvm.2
      rw [Nat.zero_add] at this
      rw [this]
      exact List.drop_eq_nil_of_le hmchunk
    obtain ⟨B, ci', ui', htup, hmap, -, -⟩ :=
      read_noLoop r hL hM (reads r m ⟨0, 0, 0⟩).2
    rw [hexh] at hmap
    simp only [List.take_nil] at hmap
    have hBnil : B = [] := List.map_eq_nil_iff.mp hmap
    rw [htup, hBnil]
  · intro conv _
    unfold convFrom
    rw [List.drop_zero, projList_map_uid, List.range_eq_range']

/-- Witness for C2 on the concrete 3+2-utterance corpus with chunk size 4
and two pulls. -/
theorem claim2_witness :
    (reads (readerAB 4 false) 2 initialOffset).1.map Row.data =
      flat (readerAB 4 false).conversations :=
  (claim2_total_coverage (readerAB 4 false) 2 rfl (by decide) (by decide)
    (by decide)).1

/-- C3: on the two-conversation corpus of 3 and 2 utterances with batch size
4 and looping disabled, the first pull from the zero offset returns the 4
payloads `(conv 1, utterances 0-2)` then `(conv 2, utterance 0)` with offset
`{1, 1, 4}`; the second pull returns `(conv 2, utterance 1)` with offset
`{2, 0, 5}`; the third pull returns an empty batch and the unchanged offset
`{2, 0, 5}` (it is a total function: it neither blocks nor raises). -/
theorem claim3_worked_example :
    ((Reader.read (readerAB 4 false) ⟨0, 0, 0⟩).1.1.map Row.data =
        [rowAt corpusAB 0 0, rowAt corpusAB 0 1, rowAt corpusAB 0 2,
         rowAt corpusAB 1 0] ∧
      (Reader.read (readerAB 4 false) ⟨0, 0, 0⟩).1.2 = ⟨1, 1, 4⟩) ∧
    ((Reader.read (readerAB 4 false) ⟨1, 1, 4⟩).1.1.map Row.data =
        [rowAt corpusAB 1 1] ∧
      (Reader.read (readerAB 4 false) ⟨1, 1, 4⟩).1.2 = ⟨2, 0, 5⟩) ∧
    (Reader.read (readerAB 4 false) ⟨2, 0, 5⟩).1 = ([], ⟨2, 0, 5⟩) := by
  decide

/-- C4 counterexample: on the corpus `[convE, convB]` whose first
conversation has no utterances, with looping enabled, the read that follows
the emission of the corpus's last utterance (cursor `(1, 2)`) produces a
record of conversation `convB` — not the first utterance of the first
conversation `convE`, which has none. -/
theorem claim4_counterexample :
    ((Reader.read readerEB ⟨1, 2, 2⟩).1.1.map
        (fun w => w.conversation_id)).head? = some "convB" ∧
    (corpusEB.getD 0 dConv).utterances = [] ∧
    (corpusEB.getD 0 dConv).conversation_id = "convE" := by
  decide

/-- C4 (amended): with looping enabled, for every corpus holding at least
one utterance, a read from any cursor that has exhausted the corpus
(immediately after its last utterance) emits as its next record the head of
the flattened corpus — the first utterance of the first conversation that
has any utterances — and `total_sent` keeps incrementing across the wrap:
the new offset carries the old total plus the batch length.  On the worked
2-conversation (3 and 2 utterances) corpus a single pull of batch size 7
from the zero offset returns conversation 1's 3 utterances, conversation
2's 2, then conversation 1's first 2 again, with offset `{0, 2, 7}`. -/
theorem claim4_loop_continuity (r : Reader) (ci ui t : Nat)
    (hL : r.loop = true) (hNE : flat r.conversations ≠ [])
    (hk : 0 < r.chunk_size)
    (hend : flatFrom r.conversations ci ui = []) :
    (∃ (w : Row) (E : List Row),
      (Reader.read r ⟨ci, ui, t⟩).1.1 = w :: E ∧
      some w.data = (flat r.conversations).head?) ∧
    (Reader.read r ⟨ci, ui, t⟩).1.2.total_sent =
      t + (Reader.read r ⟨ci, ui, t⟩).1.1.length ∧
    ((Reader.read (readerAB 7 true) ⟨0, 0, 0⟩).1.1.map Row.data =
        flat corpusAB ++ [rowAt corpusAB 0 0, rowAt corpusAB 0 1] ∧
      (Reader.read (readerAB 7 true) ⟨0, 0, 0⟩).1.2 = ⟨0, 2, 7⟩) :=
  ⟨read_wrap_head r ci ui t hL hNE hk hend,
   read_total r ⟨ci, ui, t⟩,
   by decide⟩

/-- Witness for C4 on the `[convE, convB]` corpus at the exhausted cursor
`(1, 2)`. -/
theorem claim4_witness :
    (∃ (w : Row) (E : List Row),
      (Reader.read readerEB ⟨1, 2, 2⟩).1.1 = w :: E ∧
      some w.data = (flat readerEB.conversations).head?) ∧
    (Reader.read readerEB ⟨1, 2, 2⟩).1.2.total_sent =
      2 + (Reader.read readerEB ⟨1, 2, 2⟩).1.1.length :=
  ⟨(claim4_loop_continuity readerEB 1 2 2 rfl (by decide) (by decide)
      (by decide)).1,
   (claim4_loop_continuity readerEB 1 2 2 rfl (by decide) (by decide)
      (by decide)).2.1⟩

/-- C5 counterexample: `total_sent` does change which utterances are read.
On a one-utterance corpus with `max_utterances = 1` and looping disabled,
two offsets with the same cursor `(0, 0)` but totals `0` and `1` yield one
record and zero records respectively. -/
theorem claim5_counterexample :
    (Reader.read readerMax ⟨0, 0, 0⟩).1.1.length = 1 ∧
    (Reader.read readerMax ⟨0, 0, 1⟩).1.1.length = 0 := by
  decide

/-- C5 (amended): the offset produced by `read` always carries the starting
`total_sent` plus the number of records returned (so it strictly increases
with every record and never resets); and whenever the `max_utterances` limit
is disabled or looping is enabled, `total_sent` influences neither the
emitted payload sequence nor the wrap/advance decisions — the final cursor —
of the batch loop.  The only exception is the documented early-return check
of `max_utterances` with looping disabled (the counterexample above). -/
theorem claim5_total_accounting :
    (∀ (r : Reader) (o : Offset),
      (Reader.read r o).1.2.total_sent =
        o.total_sent + (Reader.read r o).1.1.length) ∧
    (∀ (r : Reader) (ci ui t1 t2 : Nat),
      r.max_utterances ≤ 0 ∨ r.loop = true →
      (Reader.read r ⟨ci, ui, t1⟩).1.1.map Row.data =
        (Reader.read r ⟨ci, ui, t2⟩).1.1.map Row.data ∧
      (Reader.read r ⟨ci, ui, t1⟩).1.2.conversation_idx =
        (Reader.read r ⟨ci, ui, t2⟩).1.2.conversation_idx ∧
      (Reader.read r ⟨ci, ui, t1⟩).1.2.utterance_idx =
        (Reader.read r ⟨ci, ui, t2⟩).1.2.utterance_idx) := by
  constructor
  · exact read_total
  · intro r ci ui t1 t2 hor
    unfold Reader.read
    by_cases he : r.conversations.isEmpty
    · rw [if_pos he, if_pos he]
      exact ⟨rfl, rfl, rfl⟩
    · rw [if_neg he, if_neg he]
      have hg1 : ¬(r.max_utterances > 0 ∧ ((t1 : Int) ≥ r.max_utterances)
          ∧ r.loop = false) := by
        rintro ⟨h1, -, h3⟩
        rcases hor with hM | hL
        · omega
        · rw [hL] at h3; cases h3
      have hg2 : ¬(r.max_utterances > 0 ∧ ((t2 : Int) ≥ r.max_utterances)
          ∧ r.loop = false) := by
        rintro ⟨h1, -, h3⟩
        rcases hor with hM | hL
        · omega
        · rw [hL] at h3; cases h3
      rw [if_neg hg1, if_neg hg2]
      simp only []
      have hc := readLoop_congr r.chunk_size r.loop r.utterance_delay
        r.utterance_delay r.start_time r.start_time r.conversations
        (readFuel r.chunk_size r.conversations.length) ci ui 0 t1 t2
        [] [] rfl
      exact ⟨hc.1, by rw [hc.2], by rw [hc.2]⟩

/-- Witness for C5 at a concrete reader and offsets. -/
theorem claim5_witness :
    (Reader.read (readerAB 4 false) ⟨0, 0, 3⟩).1.2.total_sent =
      3 + (Reader.read (readerAB 4 false) ⟨0, 0, 3⟩).1.1.length ∧
    (Reader.read (readerAB 4 false) ⟨0, 0, 0⟩).1.1.map Row.data =
      (Reader.read (readerAB 4 false) ⟨0, 0, 9⟩).1.1.map Row.data :=
  ⟨claim5_total_accounting.1 (readerAB 4 false) ⟨0, 0, 3⟩,
   (claim5_total_accounting.2 (readerAB 4 false) 0 0 0 9
     (Or.inl (by decide))).1⟩

/-- C8: neither batch producer mutates the stored corpus.  A `read` call of
the stream reader leaves the instance's conversations list untouched, and a
`get_utterances` call of the HTTP client leaves its stored records
untouched — the emission timestamp is attached to copies whose payloads come
from the store. -/
theorem claim8_frame :
    (∀ (r : Reader) (o : Offset),
      (Reader.read r o).2.conversations = r.conversations) ∧
    (∀ (st : TranscriptClient) (limit : Nat) (now : Rat),
      (TranscriptClient.get_utterances st limit now).2.conversations =
        st.conversations ∧
      ∀ row ∈ (TranscriptClient.get_utterances st limit now).1,
        row.base ∈ st.conversations) := by
  refine ⟨read_preserves_conversations, ?_⟩
  intro st limit now
  unfold TranscriptClient.get_utterances
  by_cases he : st.conversations.isEmpty
  · rw [if_pos he]
    exact ⟨rfl, by intro row hrow; cases hrow⟩
  · rw [if_neg he]
    refine ⟨rfl, ?_⟩
    intro row hrow
    simp only [List.mem_map] at hrow
    obtain ⟨u, hu, hrow⟩ := hrow
    have hu' : u ∈ st.conversations :=
      List.mem_of_mem_take (List.mem_of_mem_drop hu)
    rw [← hrow]
    exact hu'

/-- Witness for C8 at a concrete reader and client. -/
theorem claim8_witness :
    (Reader.read (readerAB 4 false) ⟨0, 0, 0⟩).2.conversations =
      (readerAB 4 false).conversations ∧
    (TranscriptClient.get_utterances clientC 2 0).2.conversations =
      clientC.conversations ∧
    (⟨mkCU "conv_00000" 0 "agent" "hello", 0⟩ : ClientRow).base ∈
      clientC.conversations :=
  ⟨claim8_frame.1 (readerAB 4 false) ⟨0, 0, 0⟩,
   (claim8_frame.2 clientC 2 0).1,
   (claim8_frame.2 clientC 2 0).2 ⟨mkCU "conv_00000" 0 "agent" "hello", 0⟩
     (by decide)⟩

/-! Session retry behaviour (api/main.py, OpenSky client). -/

theorem sessionGet_congr :
    ∀ (retries i : Nat) (a1 a2 : Nat → Attempt),
      (∀ j, j ≤ retries → a1 (i + j) = a2 (i + j)) →
      sessionGet a1 retries i = sessionGet a2 retries i := by
  intro retries
  induction retries with
  | zero =>
    intro i a1 a2 h
    have h0 : a1 i = a2 i := by simpa using h 0 (le_refl _)
    simp only [sessionGet, h0]
  | succ r ih =>
    intro i a1 a2 h
    have h0 : a1 i = a2 i := by simpa using h 0 (by omega)
    have hshift : ∀ j, j ≤ r → a1 (i + 1 + j) = a2 (i + 1 + j) := by
      intro j hj
      have := h (j + 1) (by omega)
      rwa [show i + (j + 1) = i + 1 + j by omega] at this
    simp only [sessionGet, h0]
    cases ha : a2 i with
    | netErr => exact ih (i + 1) a1 a2 hshift
    | resp status body =>
      simp only []
      by_cases hs : status ∈ status_forcelist
      · rw [if_pos hs, if_pos hs]
        exact ih (i + 1) a1 a2 hshift
      · rw [if_neg hs, if_neg hs]

theorem sessionGet_transient :
    ∀ (retries i : Nat) (a : Nat → Attempt),
      (∀ j, (a j).isTransient = true) →
      sessionGet a retries i = .error .maxRetries := by
  intro retries
  induction retries with
  | zero =>
    intro i a h
    simp only [sessionGet]
    cases ha : a i with
    | netErr => rfl
    | resp status body =>
      have ht := h i
      rw [ha] at ht
      simp only []
      rw [if_pos (by simpa [Attempt.isTransient] using ht)]
  | succ r ih =>
    intro i a h
    simp only [sessionGet]
    cases ha : a i with
    | netErr => exact ih (i + 1) a h
    | resp status body =>
      have ht := h i
      rw [ha] at ht
      simp only []
      rw [if_pos (by simpa [Attempt.isTransient] using ht)]
      exact ih (i + 1) a h

theorem sessionGet_success :
    ∀ (retries i k : Nat) (a : Nat → Attempt) (status : Nat) (body : Payload),
      k ≤ retries → (∀ j, j < k → (a (i + j)).isTransient = true) →
      a (i + k) = .resp status body → status ∉ status_forcelist →
      sessionGet a retries i = .ok (status, body) := by
  intro retries
  induction retries with
  | zero =>
    intro i k a status body hk htrans hak hs
    have hk0 : k = 0 := by omega
    subst hk0
    simp only [Nat.add_zero] at hak
    simp only [sessionGet, hak]
    rw [if_neg hs]
  | succ r ih =>
    intro i k a status body hk htrans hak hs
    match k with
    | 0 =>
      simp only [Nat.add_zero] at hak
      simp only [sessionGet, hak]
      rw [if_neg hs]
    | k + 1 =>
      have ht := htrans 0 (by omega)
      simp only [Nat.add_zero] at ht
      have hshift : ∀ j, j < k → (a (i + 1 + j)).isTransient = true := by
        intro j hj
        have := htrans (j + 1) (by omega)
        rwa [show i + (j + 1) = i + 1 + j by omega] at this
      have hak' : a (i + 1 + k) = .resp status body := by
        rwa [show i + (k + 1) = i + 1 + k by omega] at hak
      simp only [sessionGet]
      cases ha : a i with
      | netErr => exact ih (i + 1) k a status body (by omega) hshift hak' hs
      | resp s b =>
        rw [ha] at ht
        simp only []
        rw [if_pos (by simpa [Attempt.isTransient] using ht)]
        exact ih (i + 1) k a status body (by omega) hshift hak' hs

/-- C7 counterexample: when every attempt fails at the network level,
`get_flights` raises an `HTTPException` with status 503 past its boundary —
it does not return an empty batch. -/
theorem claim7_counterexample :
    get_flights (fun _ => Attempt.netErr) 0 = .error ⟨503⟩ := rfl

/-- C7 (amended): the fetch is retried at the session layer on network
errors and on statuses 429/500/502/503/504, up to `MAX_RETRIES = 3` retries
(with the configured exponential backoff, a pure delay): `get_flights`
consults only attempts `0..MAX_RETRIES`, a first non-transient success
within the budget yields the parsed flights, and when every attempt is
transient `get_flights` raises `HTTPException(503)` rather than returning an
empty batch — its SSE streaming caller catches the exception and continues
its loop. -/
theorem claim7_retry_behaviour :
    (∀ (a1 a2 : Nat → Attempt) (nowTs : Int),
      (∀ i, i ≤ MAX_RETRIES → a1 i = a2 i) →
      get_flights a1 nowTs = get_flights a2 nowTs) ∧
    (∀ (a : Nat → Attempt) (nowTs : Int),
      (∀ i, (a i).isTransient = true) →
      get_flights a nowTs = .error ⟨503⟩) ∧
    (∀ (a : Nat → Attempt) (nowTs : Int) (k status : Nat) (body : Payload),
      k ≤ MAX_RETRIES → (∀ i, i < k → (a i).isTransient = true) →
      a k = .resp status body → status ∉ status_forcelist → status < 400 →
      get_flights a nowTs = .ok (parse_flights body nowTs)) := by
  refine ⟨?_, ?_, ?_⟩
  · intro a1 a2 nowTs h
    unfold get_flights
    rw [sessionGet_congr MAX_RETRIES 0 a1 a2 (fun j hj => by
      simpa using h j hj)]
  · intro a nowTs h
    unfold get_flights
    rw [sessionGet_transient MAX_RETRIES 0 a h]
  · intro a nowTs k status body hk htrans hak hs h400
    unfold get_flights
    rw [sessionGet_success MAX_RETRIES 0 k a status body hk
      (fun j hj => by simpa using htrans j hj) (by simpa using hak) hs]
    simp only []
    rw [if_neg (by omega)]

/-- Witness for C7 at concrete attempt sequences: boundedness, exhaustion to
a 503 error, and success after one transient failure. -/
theorem claim7_witness :
    get_flights (fun _ => Attempt.netErr) 1 =
      get_flights (fun i => if i ≤ 3 then Attempt.netErr
        else Attempt.resp 200 ⟨none, []⟩) 1 ∧
    get_flights (fun _ => Attempt.resp 503 ⟨none, []⟩) 0 = .error ⟨503⟩ ∧
    get_flights (fun i => if i = 0 then Attempt.netErr
      else Attempt.resp 200 ⟨none, []⟩) 0 =
      .ok (parse_flights ⟨none, []⟩ 0) :=
  ⟨claim7_retry_behaviour.1 _ _ 1 (fun i hi => by
      rw [if_pos (by simpa [MAX_RETRIES] using hi)]),
   claim7_retry_behaviour.2.1 _ 0 (fun i => by decide),
   claim7_retry_behaviour.2.2 _ 0 1 200 ⟨none, []⟩ (by decide)
     (fun i hi => by
       have hi0 : i = 0 := by omega
       subst hi0
       decide)
     (by decide) (by decide) (by decide)⟩

theorem generateSampleData_length (tch : Nat → List (String × String))
    (dch tpch ach : Nat → String) (conf gap : Nat → Nat → Rat) :
    (generateSampleData tch dch tpch ach conf gap).length = 50 := by
  simp [generateSampleData]

theorem tcGenConvGo_length (convId : String) (dch tpch ach : Nat → String)
    (conf gap : Nat → Rat) :
    ∀ (tmpl : List (String × String)) (tm : Rat) (idx : Nat),
      (tcGenConvGo convId dch tpch ach conf gap tmpl tm idx).length =
        tmpl.length := by
  intro tmpl
  induction tmpl with
  | nil => intro tm idx; rfl
  | cons p rest ih =>
    intro tm idx
    obtain ⟨speaker, text⟩ := p
    simp only [tcGenConvGo, List.length_cons, ih]

/-- C6 counterexample: parsing an upstream dataset that yields zero
conversations does not fail with any error — the stream-reader loader falls
back to the 50-conversation generated sample corpus. -/
theorem claim6_counterexample :
    (loadDataset (fun _ _ => 0) (fun _ => []) (fun _ => "") (fun _ => "")
      (fun _ => "") (fun _ _ => 0) (fun _ _ => 0) (some [])).length = 50 := by
  simp [loadDataset, parseHFDataset, generateSampleData]

/-- C6 (amended): no `EmptyCorpusError` exists in the code and neither
loading variant raises one.  The stream-reader loader never yields an empty
corpus: parsing `n > 0` upstream records yields `min n 100 > 0`
conversations and parsing zero records falls back to the generator, which
always produces exactly 50 conversations.  The HTTP client's file loader
crashes with a division by zero (not a dedicated error) on a file with zero
records, while its generator path yields 250 records.  A reader holding an
empty corpus would not refuse to stream: `read` returns empty batches. -/
theorem claim6_no_empty_corpus :
    (∀ (conf gconf ggap : Nat → Nat → Rat)
        (tch : Nat → List (String × String)) (dch tpch ach : Nat → String)
        (hfData : Option (List HFRec)),
      loadDataset conf tch dch tpch ach gconf ggap hfData ≠ []) ∧
    tcLoadFromLocalFile [] = .error .zeroDivision ∧
    (∀ (tch : Nat → List (String × String))
        (dch tpch ach : Nat → Nat → String) (conf gap : Nat → Nat → Rat),
      (∀ i, tch i ∈ tcTemplates) →
      (tcGenerateSampleData tch dch tpch ach conf gap).length = 250) ∧
    (∀ (r : Reader) (o : Offset), r.conversations = [] →
      Reader.read r o = (([], o), r)) := by
  refine ⟨?_, ?_, ?_, ?_⟩
  · intro conf gconf ggap tch dch tpch ach hfData
    have hgen : (generateSampleData tch dch tpch ach gconf ggap).length = 50 :=
      generateSampleData_length tch dch tpch ach gconf ggap
    match hfData with
    | none =>
      simp only [loadDataset]
      intro h
      rw [h] at hgen
      simp at hgen
    | some records =>
      simp only [loadDataset, parseHFDataset]
      by_cases hz : ((records.take 100).enum.map fun p =>
          parseRecord (conf p.1) p.1 p.2).length = 0
      · rw [if_pos hz]
        intro h
        rw [h] at hgen
        simp at hgen
      · rw [if_neg hz]
        intro h
        rw [h] at hz
        simp at hz
  · rfl
  · intro tch dch tpch ach conf gap hmem
    have h5 : ∀ t ∈ tcTemplates, t.length = 5 := by decide
    unfold tcGenerateSampleData
    rw [List.length_flatten, List.map_map]
    have hcong : (List.range 50).map
        (List.length ∘ fun i =>
          tcGenConvGo ("conv_" ++ pad5 i) (dch i) (tpch i) (ach i) (conf i)
            (gap i) (tch i) 0 0) = (List.range 50).map fun _ => 5 := by
      refine List.map_congr_left ?_
      intro i _
      simp only [Function.comp_apply]
      rw [tcGenConvGo_length]
      exact h5 (tch i) (hmem i)
    rw [hcong]
    decide
  · intro r o h
    unfold Reader.read
    rw [if_pos (by rw [h]; rfl)]

/-- Witness for C6 at concrete oracles: the generator-backed load is
non-empty, the client generator over its own templates yields 250 records,
and a reader with an empty corpus streams empty batches. -/
theorem claim6_witness :
    loadDataset (fun _ _ => 0) (fun _ => []) (fun _ => "") (fun _ => "")
      (fun _ => "") (fun _ _ => 0) (fun _ _ => 0) none ≠ [] ∧
    (tcGenerateSampleData (fun _ => tcTemplates.getD 0 []) (fun _ _ => "")
      (fun _ _ => "") (fun _ _ => "") (fun _ _ => 0) (fun _ _ => 0)).length =
      250 ∧
    Reader.read ⟨0, 1, true, -1, 10, [], 0, 0, 0, 0⟩ ⟨0, 0, 0⟩ =
      (([], ⟨0, 0, 0⟩), ⟨0, 1, true, -1, 10, [], 0, 0, 0, 0⟩) :=
  ⟨claim6_no_empty_corpus.1 (fun _ _ => 0) (fun _ _ => 0) (fun _ _ => 0)
      (fun _ => []) (fun _ => "") (fun _ => "") (fun _ => "") none,
   claim6_no_empty_corpus.2.2.1 (fun _ => tcTemplates.getD 0 [])
      (fun _ _ => "") (fun _ _ => "") (fun _ _ => "") (fun _ _ => 0)
      (fun _ _ => 0)
      (fun i =>
        show tcTemplates.getD 0 [] ∈ tcTemplates from by decide),
   claim6_no_empty_corpus.2.2.2 ⟨0, 1, true, -1, 10, [], 0, 0, 0, 0⟩
      ⟨0, 0, 0⟩ rfl⟩

/-- C9: on a non-empty stored record list, from any reachable position
(`current_idx < length`) and any `limit ≥ 1`, `get_utterances` returns
exactly `min(limit, records remaining before the end)` records — the
consecutive slice from the current position, never spanning the wrap — and
never an empty batch; the position advances by the batch and resets to `0`
exactly when it reaches the end, so the next call restarts from the first
record. -/
theorem claim9_client_batches (st : TranscriptClient) (limit : Nat)
    (now : Rat) (hne : st.conversations ≠ []) (hl : 1 ≤ limit)
    (hidx : st.current_idx < st.conversations.length) :
    (TranscriptClient.get_utterances st limit now).1.length =
      min limit (st.conversations.length - st.current_idx) ∧
    (TranscriptClient.get_utterances st limit now).1.map ClientRow.base =
      (st.conversations.drop st.current_idx).take
        (min limit (st.conversations.length - st.current_idx)) ∧
    (TranscriptClient.get_utterances st limit now).2.current_idx =
      (if st.conversations.length ≤ st.current_idx + limit then 0
       else st.current_idx + limit) ∧
    (TranscriptClient.get_utterances st limit now).1 ≠ [] := by
  have he : ¬ st.conversations.isEmpty = true := by
    simp only [List.isEmpty_iff]
    exact hne
  unfold TranscriptClient.get_utterances
  rw [if_neg he]
  simp only []
  have hlen1 : ((st.conversations.take
      (min (st.current_idx + limit) st.conversations.length)).drop
        st.current_idx).length =
      min limit (st.conversations.length - st.current_idx) := by
    rw [List.length_drop, List.length_take]
    omega
  refine ⟨?_, ?_, ?_, ?_⟩
  · rw [List.length_map, hlen1]
  · rw [List.map_map]
    have hbase : (ClientRow.base ∘ fun u => ClientRow.mk u now) = id := rfl
    rw [hbase, List.map_id, List.drop_take]
    have harith : min (st.current_idx + limit) st.conversations.length -
        st.current_idx =
        min limit (st.conversations.length - st.current_idx) := by omega
    rw [harith]
  · by_cases hcase : st.conversations.length ≤ st.current_idx + limit
    · rw [if_pos hcase]
      have hmin : min (st.current_idx + limit) st.conversations.length =
          st.conversations.length := by omega
      rw [hmin, if_pos (le_refl _)]
    · rw [if_neg hcase]
      have hmin : min (st.current_idx + limit) st.conversations.length =
          st.current_idx + limit := by omega
      rw [hmin, if_neg hcase]
  · intro h
    have hlen2 := congrArg List.length h
    rw [List.length_map, hlen1] at hlen2
    simp only [List.length_nil] at hlen2
    omega

/-- Witness for C9 at the concrete three-record client, position 0,
limit 2. -/
theorem claim9_witness :
    (TranscriptClient.get_utterances clientC 2 0).1.length =
      min 2 (clientC.conversations.length - clientC.current_idx) ∧
    (TranscriptClient.get_utterances clientC 2 0).1.map ClientRow.base =
      (clientC.conversations.drop clientC.current_idx).take
        (min 2 (clientC.conversations.length - clientC.current_idx)) ∧
    (TranscriptClient.get_utterances clientC 2 0).2.current_idx =
      (if clientC.conversations.length ≤ clientC.current_idx + 2 then 0
       else clientC.current_idx + 2) ∧
    (TranscriptClient.get_utterances clientC 2 0).1 ≠ [] :=
  claim9_client_batches clientC 2 0 (by decide) (by decide) (by decide)

/-- C10: the `max_utterances` limit only takes effect when looping is
disabled.  With looping enabled `read` behaves exactly as with the limit
disabled (`-1`) and — on a corpus holding any utterance — still returns a
full `chunk_size` batch whatever `total_sent` is; with looping disabled and
the limit reached, `read` returns an empty batch and the starting offset
unchanged. -/
theorem claim10_max_behaviour (r : Reader) (o : Offset) :
    (r.loop = true →
      (Reader.read r o).1 =
        (Reader.read { r with max_utterances := -1 } o).1) ∧
    (r.loop = true → flat r.conversations ≠ [] →
      (Reader.read r o).1.1.length = r.chunk_size) ∧
    (r.loop = false → 0 < r.max_utterances →
      r.max_utterances ≤ (o.total_sent : Int) →
      (Reader.read r o).1 = ([], o)) :=
  ⟨fun hL => read_ignores_max r o hL,
   fun hL hNE => read_full r o hL hNE,
   fun hL hm ht => read_gate r o hL hm ht⟩

/-- Witness for C10: a looping reader past its limit still fills the batch
and ignores the limit, a non-looping reader past its limit returns the empty
batch and its starting offset. -/
theorem claim10_witness :
    (Reader.read readerMaxLoop ⟨0, 0, 5⟩).1 =
      (Reader.read { readerMaxLoop with max_utterances := -1 } ⟨0, 0, 5⟩).1 ∧
    (Reader.read readerMaxLoop ⟨0, 0, 5⟩).1.1.length = 10 ∧
    (Reader.read readerMax ⟨0, 0, 1⟩).1 = ([], ⟨0, 0, 1⟩) :=
  ⟨(claim10_max_behaviour readerMaxLoop ⟨0, 0, 5⟩).1 rfl,
   (claim10_max_behaviour readerMaxLoop ⟨0, 0, 5⟩).2.1 rfl (by decide),
   (claim10_max_behaviour readerMax ⟨0, 0, 1⟩).2.2 rfl (by decide)
     (by decide)⟩

end Transcript
